import Mathlib

/-!
# Membership reconciliation of the etcd operator

A shallow embedding of `pkg/cluster/member.go` (`updateMembers`, `newMember`,
`getMemberName`), with the data of the store client and of the platform client that this code
reads, and of the readiness test of `pkg/util/k8sutil/pod_util.go` (`IsPodReady`,
`getPodReadyCondition`).

Modelling conventions.

* Go strings are Lean `String`s; `len(s) == 0` is emptiness and
  `strings.HasPrefix` is the prefix test on the underlying character lists.
* Go `int` is the 64-bit signed integer of the platforms the operator runs on:
  values are `Int`s and `+` is followed by `wrapInt` (two's complement wrap).
* A Go `map[string]T` is an association list with replace-on-write (`GoMap`).
* A Go call either returns or panics (`Outcome`); indexing an empty slice at `0`
  panics.
* `error` values are `GoError`s; `nil` is `none`.
* Functions of package `etcdutil` that `member.go` calls are taken as parameters
  (`NameCodec`, `Collaborators`), so every theorem about `updateMembers` and
  `getMemberName` holds for whatever those helpers compute.
-/

namespace EtcdOperator

/-! ## Go runtime -/

/-- The result of running a Go call: it returns a value or it panics. -/
inductive Outcome (α : Type) where
  | ret (a : α)
  | panic (reason : String)
  deriving DecidableEq

/-- Two's complement wrap of a mathematical integer into the range of Go `int` (64 bits). -/
def wrapInt (x : Int) : Int := (x + 2 ^ 63) % 2 ^ 64 - 2 ^ 63

/-- The text of the runtime panic raised by `xs[0]` on an empty slice. -/
def indexPanic : String := "runtime error: index out of range [0] with length 0"

/-- The Go expression `xs[0]` on a slice of strings. -/
def index0 (xs : List String) : Outcome String :=
  match xs with
  | [] => .panic indexPanic
  | x :: _ => .ret x

/-- The Go function `strings.HasPrefix(s, pre)`. -/
def HasPrefix (s pre : String) : Bool := pre.data.isPrefixOf s.data

/-- A Go `map[string]T`: an association list, the first entry for a key being the live one. -/
abbrev GoMap (α : Type) := List (String × α)

namespace GoMap

/-- The comma-ok lookup `v, ok := m[k]`. -/
def get? {α : Type} (m : GoMap α) (k : String) : Option α :=
  match m with
  | [] => none
  | (k', v) :: rest => if k' = k then some v else get? rest k

/-- The plain lookup `m[k]`, giving the zero value `""` for an absent key. -/
def getD (m : GoMap String) (k : String) : String :=
  match get? m k with
  | some v => v
  | none => ""

/-- The assignment `m[k] = v`: any earlier entry for `k` is replaced. -/
def set {α : Type} (m : GoMap α) (k : String) (v : α) : GoMap α :=
  (k, v) :: m.filter (fun e => e.1 ≠ k)

/-- The keys of the map. -/
def keys {α : Type} (m : GoMap α) : List String := m.map Prod.fst

end GoMap

/-! ## Errors -/

/-- Modelled from the spec: the error values of `pkg/cluster/cluster.go`, which is not among the
sources. §4.6 gives two kinds of error, Fatal and ordinary, the kind being attached where the
error is created. `fatal` is the value `newFatalError` makes, `external` an error value made
by a collaborator (store client, platform client, name codec), `errorf` the result of
`fmt.Errorf`, and `wrap` the result of `errors.Wrap` (`github.com/pkg/errors`), which keeps its
cause. -/
inductive GoError where
  | external (msg : String)
  | fatal (reason : String)
  | errorf (msg : String)
  | wrap (cause : GoError) (msg : String)
  deriving DecidableEq

/-- Modelled from the spec: the constructor `newFatalError(reason)` of `pkg/cluster/cluster.go`
(not among the sources), which tags the error as Fatal where it is created (§4.6). -/
def newFatalError (reason : String) : GoError := .fatal reason

namespace GoError

/-- The method `err.Error()`, used by the `%v` verb. -/
def Error : GoError → String
  | external msg => msg
  | fatal reason => reason
  | errorf msg => msg
  | wrap cause msg => msg ++ ": " ++ Error cause

/-- The function `errors.Cause(err)`: the innermost error under the wrappers. -/
def Cause : GoError → GoError
  | wrap cause _ => Cause cause
  | e => e

end GoError

/-- Modelled from the spec: `isFatalError` of `pkg/cluster/cluster.go` (not among the
sources). §4.6: an error is Fatal exactly when it was created as Fatal; wrapping
keeps the classification, which is never read off the message text. -/
def isFatalError (err : GoError) : Bool :=
  match err.Cause with
  | .fatal _ => true
  | _ => false

/-! ## Data model -/

/-- The type `etcdserverpb.Member`: one membership record reported by the store. -/
structure EtcdMember where
  ID : Nat
  Name : String
  PeerURLs : List String
  ClientURLs : List String
  deriving DecidableEq

/-- The type `etcdutil.Member`, with the fields `member.go` reads and writes. -/
structure Member where
  Name : String
  Namespace : String
  ID : Nat
  PodIP : String
  SecurePeer : Bool
  SecureClient : Bool
  SelfHosted : Bool
  deriving DecidableEq

/-- The type `etcdutil.MemberSet`, a `map[string]*Member`. -/
abbrev MemberSet := GoMap Member

/-- The type `api.SelfHostedPolicy`. -/
structure SelfHostedPolicy where
  BootMemberClientEndpoint : String
  deriving DecidableEq

/-- The part of `api.ClusterSpec` the membership code reads. -/
structure ClusterSpec where
  SelfHosted : Option SelfHostedPolicy
  deriving DecidableEq

/-- The part of `api.EtcdCluster` (`c.cluster`) the membership code reads. -/
structure EtcdCluster where
  Name : String
  Namespace : String
  Spec : ClusterSpec
  deriving DecidableEq

/-- The type `v1.PodCondition`, with condition types and statuses as strings. -/
structure PodCondition where
  Type_ : String
  Status : String
  deriving DecidableEq

/-- The type `v1.PodStatus`. -/
structure PodStatus where
  PodIP : String
  Conditions : List PodCondition
  deriving DecidableEq

/-- The type `v1.Pod`. -/
structure Pod where
  Name : String
  Namespace : String
  Labels : GoMap String
  Status : PodStatus
  deriving DecidableEq

/-- The receiver `*Cluster` of `updateMembers` and `newMember`. The fields `securePeer` and
`secureClient` are what the methods `c.isSecurePeer()` and `c.isSecureClient()` return. -/
structure Cluster where
  cluster : EtcdCluster
  securePeer : Bool
  secureClient : Bool
  members : MemberSet
  memberCounter : Int
  deriving DecidableEq

/-- The functions of package `etcdutil` that resolve names, as parameters of the embedding.
An `Except.error` carries the message of the error the helper returns. -/
structure NameCodec where
  GetCounterFromMemberName : String → Except String Int
  MemberNameFromPeerURL : String → Except String String

/-- The capabilities a pass queries: `etcdutil.ListMembers(known.ClientURLs(), c.tlsConfig)` as a
function of `known`, and `KubeCli.CoreV1().Pods(namespace).List` as a function of the
namespace. An `Except.error` carries the message of the error the collaborator returns. -/
structure Collaborators where
  ListMembers : MemberSet → Except String (List EtcdMember)
  ListPods : String → Except String (List Pod)

/-! ## A name codec -/

/-- The characters after the last `-` of a name, when the name has a `-`. -/
def afterLastDash : List Char → Option (List Char)
  | [] => none
  | c :: cs =>
    match afterLastDash cs with
    | some s => some s
    | none => if c = '-' then some cs else none

/-- The value of a run of decimal digits read after `acc`, when every character is a digit. -/
def parseDigits : List Char → Nat → Option Nat
  | [], acc => some acc
  | c :: cs, acc =>
    if '0'.toNat ≤ c.toNat ∧ c.toNat ≤ '9'.toNat then
      parseDigits cs (10 * acc + (c.toNat - '0'.toNat))
    else none

/-- Modelled from the spec: `etcdutil.GetCounterFromMemberName` (package `etcdutil` is not among
the sources). §4.1 `Decode`: the counter is the trailing suffix of the name, and decoding fails
when the name does not contain a parseable trailing counter suffix. The suffix is the text after
the last `-`; it is parseable when it is a non-empty run of decimal digits whose value fits a Go
`int`. -/
def GetCounterFromMemberName (name : String) : Except String Int :=
  match afterLastDash name.data with
  | none => .error ("name (" ++ name ++ ") does not contain a counter suffix")
  | some [] => .error ("name (" ++ name ++ ") does not contain a counter suffix")
  | some (d :: ds) =>
    match parseDigits (d :: ds) 0 with
    | none => .error ("could not parse the counter of " ++ name)
    | some n =>
      if n < 2 ^ 63 then .ok (Int.ofNat n)
      else .error ("counter of " ++ name ++ " out of range")

/-- The text of a URL after its first `://`, when it has one. -/
def afterScheme : List Char → Option (List Char)
  | [] => none
  | c :: cs =>
    match c, cs with
    | ':', '/' :: '/' :: rest => some rest
    | _, _ => afterScheme cs

/-- Modelled from the spec: `etcdutil.MemberNameFromPeerURL` (package `etcdutil` is not among the
sources). §4.2: the member name is the host/identifier component of the advertised peer URL;
an unparsable URL is an error. The URL is parsable when it has a scheme separator `://`; the
identifier is the host up to its first `.`, `:` or `/`. -/
def MemberNameFromPeerURL (pu : String) : Except String String :=
  match afterScheme pu.data with
  | none => .error ("parse " ++ pu ++ ": missing scheme")
  | some rest => .ok (String.mk (rest.takeWhile (fun c => c ≠ '.' ∧ c ≠ ':' ∧ c ≠ '/')))

/-- The decimal digit `d` as a character. -/
def digitChar (d : Nat) : Char := Char.ofNat ('0'.toNat + d)

/-- The decimal digits of `n` put in front of `acc`; `fuel` bounds the number of digits. -/
def decimalDigits : Nat → Nat → List Char → List Char
  | 0, _, acc => acc
  | fuel + 1, n, acc =>
    if n < 10 then digitChar n :: acc
    else decimalDigits fuel (n / 10) (digitChar (n % 10) :: acc)

/-- The decimal digits of `n`, padded with zeros on the left to `width` characters. -/
def paddedDecimal (width n : Nat) : List Char :=
  List.replicate (width - (decimalDigits (n + 1) n []).length) '0'
    ++ decimalDigits (n + 1) n []

/-- Modelled from the spec: `etcdutil.CreateMemberName` (package `etcdutil` is not among the
sources). §4.1 `Encode`: the name is derived from the cluster name and the counter, carries the
cluster name as a prefix and the counter as a trailing suffix. The spec fixes neither the
separator nor the width: the model takes `-` and four digits, as in `foo-0001`, and writes a
negative counter with its sign inside the four characters. -/
def CreateMemberName (clusterName : String) (member : Int) : String :=
  match member with
  | Int.ofNat n => clusterName ++ "-" ++ String.mk (paddedDecimal 4 n)
  | Int.negSucc n => clusterName ++ "-" ++ String.mk ('-' :: paddedDecimal 3 (n + 1))

/-- The name codec of package `etcdutil`, as modelled from the spec. -/
def etcdutil : NameCodec :=
  { GetCounterFromMemberName := GetCounterFromMemberName,
    MemberNameFromPeerURL := MemberNameFromPeerURL }

/-! ## `getMemberName` -/

/-- The function `getMemberName` of `pkg/cluster/member.go`. -/
def getMemberName (u : NameCodec) (m : EtcdMember) (clusterName : String)
    (selfHosted : Option SelfHostedPolicy) : Outcome (String × Option GoError) :=
  match selfHosted with
  | some sh =>
    if m.Name.length = 0 ∨ m.ClientURLs.length = 0 then
      match index0 m.PeerURLs with
      | .panic r => .panic r
      | .ret p =>
        .ret ("", some (newFatalError ("unready self-hosted member (peerURL: " ++ p ++ ")")))
    else
      match index0 m.ClientURLs with
      | .panic r => .panic r
      | .ret curl =>
        if curl = sh.BootMemberClientEndpoint then
          .ret ("", some (.errorf
            ("skipping for self hosted cluster: waiting for the boot member (" ++ m.Name
              ++ ") to be removed...")))
        else if ¬ HasPrefix m.Name clusterName then
          .ret ("", some (newFatalError
            ("member (" ++ m.Name ++ ") does not belong to this cluster")))
        else
          .ret (m.Name, none)
  | none =>
    match index0 m.PeerURLs with
    | .panic r => .panic r
    | .ret p =>
      match u.MemberNameFromPeerURL p with
      | .error err =>
        .ret ("", some (newFatalError ("invalid member peerURL (" ++ p ++ "): " ++ err)))
      | .ok name => .ret (name, none)

/-! ## `updateMembers` -/

/-- Lines 42-46 of `updateMembers`: the index from the `etcd_node` label to the pod address,
over the pods whose `etcd_cluster` label is the cluster name. -/
def buildPeerPodIPs (clusterName : String) (pods : List Pod) (acc : GoMap String) :
    GoMap String :=
  match pods with
  | [] => acc
  | p :: rest =>
    if GoMap.getD p.Labels "etcd_cluster" = clusterName then
      buildPeerPodIPs clusterName rest (GoMap.set acc (GoMap.getD p.Labels "etcd_node") p.Status.PodIP)
    else
      buildPeerPodIPs clusterName rest acc

/-- Lines 59-61 of `updateMembers`: `if ct+1 > c.memberCounter { c.memberCounter = ct + 1 }`. -/
def raiseCounter (c : Cluster) (ct : Int) : Cluster :=
  if wrapInt (ct + 1) > c.memberCounter then { c with memberCounter := wrapInt (ct + 1) } else c

/-- Lines 50-83 of `updateMembers`: the loop over `resp.Members`, with the cluster state and the
set under construction threaded through, ending in `c.members = members; return nil`. -/
def membersLoop (u : NameCodec) (peerPodIPs : GoMap String) :
    List EtcdMember → Cluster → MemberSet → Cluster × Outcome (Option GoError)
  | [], c, members => ({ c with members := members }, .ret none)
  | m :: rest, c, members =>
    match getMemberName u m c.cluster.Name c.cluster.Spec.SelfHosted with
    | .panic r => (c, .panic r)
    | .ret (_, some err) => (c, .ret (some (.wrap err "get member name failed")))
    | .ret (name, none) =>
      match u.GetCounterFromMemberName name with
      | .error err =>
        (c, .ret (some (newFatalError
          ("get counter from member name (" ++ name ++ ") failed: " ++ err))))
      | .ok ct =>
        let c := raiseCounter c ct
        let member : Member :=
          { Name := name, Namespace := c.cluster.Namespace, ID := m.ID, PodIP := "",
            SecurePeer := c.securePeer, SecureClient := c.secureClient, SelfHosted := false }
        if c.cluster.Spec.SelfHosted.isSome then
          match GoMap.get? peerPodIPs m.Name with
          | none =>
            (c, .ret (some (newFatalError
              ("could not get podIP for " ++ m.Name ++ " member (ID " ++ toString m.ID ++ ")"))))
          | some podIP =>
            membersLoop u peerPodIPs rest c
              (GoMap.set members name { member with PodIP := podIP, SelfHosted := true })
        else
          membersLoop u peerPodIPs rest c (GoMap.set members name member)

/-- Lines 36-47 of `updateMembers`: the map `peerPodIPs`, empty in normal mode and built from the
pod listing in self-hosted mode; a failed listing is the error the method returns. -/
def peerPodIPs (w : Collaborators) (c : Cluster) : Except String (GoMap String) :=
  if c.cluster.Spec.SelfHosted.isSome then
    match w.ListPods c.cluster.Namespace with
    | .error err => .error err
    | .ok pods => .ok (buildPeerPodIPs c.cluster.Name pods [])
  else
    .ok []

/-- Lines 36-84 of `updateMembers`: what the method does once the store has answered with the
records `resp`. -/
def reconcileRecords (u : NameCodec) (w : Collaborators) (c : Cluster)
    (resp : List EtcdMember) : Cluster × Outcome (Option GoError) :=
  match peerPodIPs w c with
  | .error err => (c, .ret (some (.external err)))
  | .ok ips => membersLoop u ips resp c []

/-- The method `(*Cluster).updateMembers` of `pkg/cluster/member.go`: the state after the call
and what the call returned. -/
def updateMembers (u : NameCodec) (w : Collaborators) (c : Cluster) (known : MemberSet) :
    Cluster × Outcome (Option GoError) :=
  match w.ListMembers known with
  | .error err => (c, .ret (some (.external err)))
  | .ok resp => reconcileRecords u w c resp

/-- The method `(*Cluster).newMember` of `pkg/cluster/member.go`, with `etcdutil.CreateMemberName`
as a parameter. -/
def newMember (CreateMemberName : String → Int → String) (c : Cluster) (id : Int) : Member :=
  { Name := CreateMemberName c.cluster.Name id, Namespace := c.cluster.Namespace, ID := 0,
    PodIP := "", SecurePeer := c.securePeer, SecureClient := c.secureClient,
    SelfHosted := c.cluster.Spec.SelfHosted.isSome }

/-- The call `c.newMember(id)` in state-passing form: the cluster state after the call and the
member returned. The method only reads its receiver. -/
def newMemberCall (CreateMemberName : String → Int → String) (c : Cluster) (id : Int) :
    Cluster × Member :=
  (c, newMember CreateMemberName c id)

/-! ## Pod readiness (`pkg/util/k8sutil/pod_util.go`) -/

/-- The constant `v1.PodReady` of the Kubernetes API. -/
def PodReady : String := "Ready"

/-- The constant `v1.ConditionTrue` of the Kubernetes API. -/
def ConditionTrue : String := "True"

/-- Lines 160-165 of `getPodReadyCondition`: the loop over `status.Conditions`, from the
conditions not yet visited. -/
def firstReadyCondition : List PodCondition → Option PodCondition
  | [] => none
  | cond :: rest => if cond.Type_ = PodReady then some cond else firstReadyCondition rest

/-- The function `getPodReadyCondition` of `pkg/util/k8sutil/pod_util.go`; `none` is `nil`. -/
def getPodReadyCondition (status : PodStatus) : Option PodCondition :=
  firstReadyCondition status.Conditions

/-- The function `IsPodReady` of `pkg/util/k8sutil/pod_util.go`. -/
def IsPodReady (pod : Pod) : Bool :=
  match getPodReadyCondition pod.Status with
  | none => false
  | some condition => decide (condition.Status = ConditionTrue)

/-! ## Notions the claims use -/

/-- The Go test `p.Labels["etcd_cluster"] == clusterName && p.Labels["etcd_node"] == node`: the pod
carries the labels of the member `node` of the cluster; an absent label reads as `""`. -/
def carriesLabels (clusterName node : String) (p : Pod) : Bool :=
  decide (GoMap.getD p.Labels "etcd_cluster" = clusterName) &&
    decide (GoMap.getD p.Labels "etcd_node" = node)

/-- The counters of the records whose name and counter were resolved before the loop of
`updateMembers` stopped, in the order of the records; `cl` is `c.cluster`. -/
def resolvedCounters (u : NameCodec) (ips : GoMap String) (cl : EtcdCluster) :
    List EtcdMember → List Int
  | [] => []
  | m :: rest =>
    match getMemberName u m cl.Name cl.Spec.SelfHosted with
    | .ret (name, none) =>
      match u.GetCounterFromMemberName name with
      | .ok ct =>
        if cl.Spec.SelfHosted.isSome = true ∧ GoMap.get? ips m.Name = none then [ct]
        else ct :: resolvedCounters u ips cl rest
      | .error _ => []
    | _ => []

/-- The counters of the records whose name and counter were resolved before a pass stopped;
none when the store or the platform query failed. -/
def countersSeen (u : NameCodec) (w : Collaborators) (c : Cluster) (known : MemberSet) :
    List Int :=
  match w.ListMembers known with
  | .error _ => []
  | .ok resp =>
    match peerPodIPs w c with
    | .error _ => []
    | .ok ips => resolvedCounters u ips c.cluster resp

/-- One reconciliation pass as the control loop issues it: the collaborators as they answer
during the pass, and the `known` set handed to `updateMembers`. -/
structure Pass where
  world : Collaborators
  known : MemberSet

/-- The cluster state after the passes `ps`, run one after the other by the control loop; the
state a pass leaves is the state the next one starts from, however the pass ended. -/
def runPasses (u : NameCodec) (c : Cluster) (ps : List Pass) : Cluster :=
  ps.foldl (fun st p => (updateMembers u p.world st p.known).1) c

/-- Equality of `Except` values is decidable when it is for errors and results. -/
instance instDecidableEqExcept {ε α : Type} [DecidableEq ε] [DecidableEq α] :
    DecidableEq (Except ε α) := fun a b =>
  match a, b with
  | .ok x, .ok y =>
    if h : x = y then isTrue (by rw [h]) else isFalse (fun h2 => h (by cases h2; rfl))
  | .error x, .error y =>
    if h : x = y then isTrue (by rw [h]) else isFalse (fun h2 => h (by cases h2; rfl))
  | .ok _, .error _ => isFalse (fun h => by cases h)
  | .error _, .ok _ => isFalse (fun h => by cases h)

/-- The entry that lines 63-80 of `updateMembers` store for the record `m` once it has resolved
to `name`, given the address index `ips`: the fields of the value `v` put under the key. -/
def IsEntryOf (c : Cluster) (ips : GoMap String) (m : EtcdMember) (name : String)
    (v : Member) : Prop :=
  v.Name = name ∧ v.Namespace = c.cluster.Namespace ∧ v.ID = m.ID ∧
  v.SecurePeer = c.securePeer ∧ v.SecureClient = c.secureClient ∧
  (c.cluster.Spec.SelfHosted = none → v.PodIP = "" ∧ v.SelfHosted = false) ∧
  (c.cluster.Spec.SelfHosted.isSome = true →
    v.SelfHosted = true ∧ GoMap.get? ips m.Name = some v.PodIP)

/-- The success condition of `getMemberName` in self-hosted mode: a name, a client URL that is
not the boot member's, and the cluster name as a prefix of the name. -/
def ReadyOwned (m : EtcdMember) (clusterName : String) (sh : SelfHostedPolicy) : Prop :=
  m.Name ≠ "" ∧ m.ClientURLs ≠ [] ∧
    m.ClientURLs.head? ≠ some sh.BootMemberClientEndpoint ∧
    HasPrefix m.Name clusterName = true

instance instDecidableReadyOwned (m : EtcdMember) (clusterName : String)
    (sh : SelfHostedPolicy) : Decidable (ReadyOwned m clusterName sh) := by
  unfold ReadyOwned; infer_instance

instance instDecidableIsEntryOf (c : Cluster) (ips : GoMap String) (m : EtcdMember)
    (name : String) (v : Member) : Decidable (IsEntryOf c ips m name v) := by
  unfold IsEntryOf; infer_instance

/-! ## Sample clusters and collaborators -/

/-- The member `foo-0005`, tracked since an earlier pass. -/
def staleMember (podIP : String) (selfHosted : Bool) : Member :=
  { Name := "foo-0005", Namespace := "default", ID := 55, PodIP := podIP,
    SecurePeer := false, SecureClient := true, SelfHosted := selfHosted }

/-- A normal-mode cluster named `foo` that tracks one member from an earlier pass. -/
def fooCluster : Cluster :=
  { cluster := ⟨"foo", "default", ⟨none⟩⟩,
    securePeer := false, secureClient := true,
    members := [("foo-0005", staleMember "" false)],
    memberCounter := 6 }

/-- A self-hosted cluster named `foo` whose boot member serves clients at `http://boot:2379`. -/
def fooSelfHosted : Cluster :=
  { cluster := ⟨"foo", "default", ⟨some ⟨"http://boot:2379"⟩⟩⟩,
    securePeer := false, secureClient := true,
    members := [("foo-0005", staleMember "10.0.0.5" true)],
    memberCounter := 6 }

/-- Collaborators whose store answers with `resp` and whose platform lists `pods`. -/
def answering (resp : List EtcdMember) (pods : List Pod) : Collaborators :=
  { ListMembers := fun _ => .ok resp, ListPods := fun _ => .ok pods }

/-- Collaborators whose store cannot be reached. -/
def storeDown : Collaborators :=
  { ListMembers := fun _ => .error "context deadline exceeded", ListPods := fun _ => .ok [] }

/-- Collaborators whose store answers with `resp` and whose platform query fails. -/
def platformDown (resp : List EtcdMember) : Collaborators :=
  { ListMembers := fun _ => .ok resp, ListPods := fun _ => .error "connection refused" }

/-- A pod of cluster `foo` for the member `node`, at address `ip`. -/
def fooPod (node ip : String) : Pod :=
  { Name := node, Namespace := "default",
    Labels := [("etcd_cluster", "foo"), ("etcd_node", node)],
    Status := { PodIP := ip, Conditions := [] } }

/-- A record of cluster `foo` in normal mode: the member with counter suffix `sfx`. -/
def fooRecord (id : Nat) (sfx : String) : EtcdMember :=
  { ID := id, Name := "foo-" ++ sfx,
    PeerURLs := ["http://foo-" ++ sfx ++ ".foo.default.svc:2380"],
    ClientURLs := ["http://foo-" ++ sfx ++ ".foo.default.svc:2379"] }

/-- A normal-mode record whose peer URL names the member with the largest counter an `int`
holds. -/
def maxCounterRecord : EtcdMember :=
  ⟨9, "", ["http://foo-9223372036854775807.foo.default.svc:2380"], []⟩

/-- A fresh normal-mode cluster named `foo`: no member tracked, counter `0`. -/
def freshCluster : Cluster :=
  { cluster := ⟨"foo", "default", ⟨none⟩⟩,
    securePeer := false, secureClient := true,
    members := [], memberCounter := 0 }

/-- The state of `fooCluster` after a pass in which the store reports `foo-0007` and
`foo-0008`. -/
def afterTwo : Cluster :=
  { fooCluster with
    members := [("foo-0008", ⟨"foo-0008", "default", 2, "", false, true, false⟩),
                ("foo-0007", ⟨"foo-0007", "default", 1, "", false, true, false⟩)],
    memberCounter := 9 }

/-- The policy of `fooSelfHosted`. -/
def bootPolicy : SelfHostedPolicy := ⟨"http://boot:2379"⟩

/-- The boot member of a self-hosted cluster, as the store reports it once it runs. -/
def bootRecord : EtcdMember :=
  ⟨7, "boot", ["http://boot:2380"], ["http://boot:2379", "http://127.0.0.1:2379"]⟩

/-- A record at the boot endpoint that has not reported a name. -/
def namelessBootRecord : EtcdMember :=
  ⟨7, "", ["http://boot:2380"], ["http://boot:2379"]⟩

/-- A started self-hosted member of another cluster, `bar`. -/
def barRecord : EtcdMember :=
  ⟨8, "bar-0000", ["http://10.0.0.8:2380"], ["http://10.0.0.8:2379"]⟩

/-- A started self-hosted member of cluster `foo`, named `foo-0001`. -/
def selfHostedRecord : EtcdMember :=
  ⟨1, "foo-0001", ["http://10.0.0.1:2380"], ["http://10.0.0.1:2379"]⟩

/-- A normal-mode record that advertises no peer URL. -/
def noPeerRecord : EtcdMember := ⟨3, "foo-0003", [], ["http://foo-0003.foo.default.svc:2379"]⟩

/-- A normal-mode record whose peer URL has no scheme. -/
def brokenPeerRecord : EtcdMember := ⟨2, "foo-0008", ["foo-0008"], []⟩

/-- A self-hosted record with no name, no client URL and no peer URL. -/
def blankRecord : EtcdMember := ⟨4, "", [], []⟩

/-- A self-hosted record that was added to the cluster and has not started: peer URL only. -/
def unstartedRecord : EtcdMember := ⟨4, "", ["http://10.0.0.4:2380"], []⟩

/-- A self-hosted record with a name of cluster `foo` and neither client nor peer URL. -/
def namedBlankRecord : EtcdMember := ⟨5, "foo-0002", [], []⟩

/-- A started self-hosted member whose name carries the cluster name `foo` and no counter. -/
def undecodableRecord : EtcdMember :=
  ⟨6, "foo", ["http://10.0.0.6:2380"], ["http://10.0.0.6:2379"]⟩

/-- A pod of cluster `bar` that carries the node label `node`. -/
def barPod (node ip : String) : Pod :=
  { Name := node, Namespace := "default",
    Labels := [("etcd_cluster", "bar"), ("etcd_node", node)],
    Status := { PodIP := ip, Conditions := [] } }

/-- A normal-mode record whose peer URL names the member with counter `2^63 - 2`. -/
def nearMaxCounterRecord : EtcdMember :=
  ⟨8, "", ["http://foo-9223372036854775806.foo.default.svc:2380"], []⟩

/-- A started self-hosted member named by the codec for cluster `foo2`, counter `0`. -/
def foo2Record : EtcdMember :=
  ⟨3, CreateMemberName "foo2" 0, ["http://10.0.0.3:2380"], ["http://10.0.0.3:2379"]⟩

/-- The state of `fooSelfHosted` after a pass in which the store reports `foo-0001` and the
last pod listed for that member has the address `10.0.0.2`. -/
def afterSelfHosted : Cluster :=
  { fooSelfHosted with
    members := [("foo-0001", ⟨"foo-0001", "default", 1, "10.0.0.2", false, true, true⟩)] }

/-- The pods listed for the member `foo-0001`: two of cluster `foo`, one of cluster `bar`. -/
def threePods : List Pod :=
  [fooPod "foo-0001" "10.0.0.1", fooPod "foo-0001" "10.0.0.2", barPod "foo-0001" "10.9.9.9"]

theorem raiseCounter_members (c : Cluster) (ct : Int) :
    (raiseCounter c ct).members = c.members := by
  unfold raiseCounter; split <;> rfl

theorem raiseCounter_cluster (c : Cluster) (ct : Int) :
    (raiseCounter c ct).cluster = c.cluster := by
  unfold raiseCounter; split <;> rfl

theorem raiseCounter_securePeer (c : Cluster) (ct : Int) :
    (raiseCounter c ct).securePeer = c.securePeer := by
  unfold raiseCounter; split <;> rfl

theorem raiseCounter_secureClient (c : Cluster) (ct : Int) :
    (raiseCounter c ct).secureClient = c.secureClient := by
  unfold raiseCounter; split <;> rfl

theorem raiseCounter_le (c : Cluster) (ct : Int) :
    c.memberCounter ≤ (raiseCounter c ct).memberCounter := by
  unfold raiseCounter; split
  · simp only; omega
  · exact le_refl _

theorem le_wrapInt (x : Int) (h : x < 2 ^ 63) : x ≤ wrapInt x := by
  unfold wrapInt; omega

theorem raiseCounter_gt (c : Cluster) (ct : Int) (h : ct + 1 < 2 ^ 63) :
    ct < (raiseCounter c ct).memberCounter := by
  have hw := le_wrapInt (ct + 1) h
  unfold raiseCounter; split
  · simp only; omega
  · omega

/-! ## Lemmas on the loop of `updateMembers` -/

theorem membersLoop_members_of_error (u : NameCodec) (ips : GoMap String) :
    ∀ (rest : List EtcdMember) (c : Cluster) (ms : MemberSet),
      (membersLoop u ips rest c ms).2 ≠ .ret none →
      (membersLoop u ips rest c ms).1.members = c.members := by
  intro rest
  induction rest with
  | nil => intro c ms h; exact absurd rfl h
  | cons m rest ih =>
    intro c ms
    unfold membersLoop
    split
    · intro _; rfl
    · intro _; rfl
    · split
      · intro _; rfl
      · simp only
        split
        · split
          · intro _; exact raiseCounter_members c _
          · intro h; rw [ih _ _ h]; exact raiseCounter_members c _
        · intro h; rw [ih _ _ h]; exact raiseCounter_members c _

theorem membersLoop_counter_le (u : NameCodec) (ips : GoMap String) :
    ∀ (rest : List EtcdMember) (c : Cluster) (ms : MemberSet),
      c.memberCounter ≤ (membersLoop u ips rest c ms).1.memberCounter := by
  intro rest
  induction rest with
  | nil => intro c ms; exact le_refl _
  | cons m rest ih =>
    intro c ms
    unfold membersLoop
    split
    · exact le_refl _
    · exact le_refl _
    · split
      · exact le_refl _
      · simp only
        split
        · split
          · exact raiseCounter_le c _
          · exact le_trans (raiseCounter_le c _) (ih _ _)
        · exact le_trans (raiseCounter_le c _) (ih _ _)

theorem updateMembers_members_of_error (u : NameCodec) (w : Collaborators) (c : Cluster)
    (known : MemberSet) (h : (updateMembers u w c known).2 ≠ .ret none) :
    (updateMembers u w c known).1.members = c.members := by
  unfold updateMembers reconcileRecords at h ⊢
  cases hl : w.ListMembers known with
  | error err => rfl
  | ok resp =>
    cases hp : peerPodIPs w c with
    | error err => rfl
    | ok ips =>
      simp only [hl, hp] at h ⊢
      exact membersLoop_members_of_error u ips resp c [] h

theorem updateMembers_counter_le (u : NameCodec) (w : Collaborators) (c : Cluster)
    (known : MemberSet) :
    c.memberCounter ≤ (updateMembers u w c known).1.memberCounter := by
  unfold updateMembers reconcileRecords
  split
  · exact le_refl _
  · split
    · exact le_refl _
    · exact membersLoop_counter_le u _ _ c []

theorem runPasses_counter_le (u : NameCodec) (ps : List Pass) :
    ∀ c : Cluster, c.memberCounter ≤ (runPasses u c ps).memberCounter := by
  induction ps with
  | nil => intro c; exact le_refl _
  | cons p ps ih =>
    intro c
    exact le_trans (updateMembers_counter_le u p.world c p.known) (ih _)

theorem runPasses_append (u : NameCodec) (c : Cluster) (ps qs : List Pass) :
    runPasses u c (ps ++ qs) = runPasses u (runPasses u c ps) qs := by
  simp [runPasses, List.foldl_append]

/-- A pass that returns `nil` is the loop run over the store's answer with the address index. -/
theorem updateMembers_ok (u : NameCodec) (w : Collaborators) (c c1 : Cluster)
    (known : MemberSet) (h : updateMembers u w c known = (c1, .ret none)) :
    ∃ resp ips, w.ListMembers known = .ok resp ∧ peerPodIPs w c = .ok ips ∧
      membersLoop u ips resp c [] = (c1, .ret none) := by
  unfold updateMembers reconcileRecords at h
  cases hl : w.ListMembers known with
  | error err => simp only [hl] at h; cases h
  | ok resp =>
    cases hp : peerPodIPs w c with
    | error err => simp only [hl, hp] at h; cases h
    | ok ips =>
      simp only [hl, hp] at h
      exact ⟨resp, ips, rfl, rfl, h⟩

/-! ## Lemmas on Go maps -/

theorem GoMap.mem_set {α : Type} (m : GoMap α) (k : String) (v : α) (k' : String) (v' : α) :
    (k', v') ∈ GoMap.set m k v ↔ (k' = k ∧ v' = v) ∨ ((k', v') ∈ m ∧ k' ≠ k) := by
  simp [GoMap.set, List.mem_filter]

theorem GoMap.mem_keys_set {α : Type} (m : GoMap α) (k : String) (v : α) (x : String) :
    x ∈ GoMap.keys (GoMap.set m k v) ↔ x = k ∨ x ∈ GoMap.keys m := by
  simp only [GoMap.keys, GoMap.set, List.map_cons, List.mem_cons, List.mem_map, List.mem_filter]
  constructor
  · rintro (h | ⟨e, ⟨he, _⟩, rfl⟩)
    · exact Or.inl h
    · exact Or.inr ⟨e, he, rfl⟩
  · rintro (h | ⟨e, he, rfl⟩)
    · exact Or.inl h
    · by_cases hk : e.1 = k
      · exact Or.inl hk
      · exact Or.inr ⟨e, ⟨he, by simpa using hk⟩, rfl⟩

theorem GoMap.nodup_keys_set {α : Type} (m : GoMap α) (k : String) (v : α)
    (h : (GoMap.keys m).Nodup) : (GoMap.keys (GoMap.set m k v)).Nodup := by
  simp only [GoMap.keys, GoMap.set, List.map_cons, List.nodup_cons, List.mem_map,
    List.mem_filter]
  constructor
  · rintro ⟨e, ⟨_, he⟩, rfl⟩
    simp at he
  · exact (List.filter_sublist m).map Prod.fst |>.nodup h

theorem GoMap.get?_eq_some_of_mem {α : Type} (m : GoMap α) (h : (GoMap.keys m).Nodup)
    (k : String) (v : α) (hm : (k, v) ∈ m) : GoMap.get? m k = some v := by
  induction m with
  | nil => cases hm
  | cons e rest ih =>
    obtain ⟨k0, v0⟩ := e
    simp only [GoMap.keys, List.map_cons, List.nodup_cons] at h
    rcases List.mem_cons.mp hm with heq | hrest
    · cases heq; simp [GoMap.get?]
    · have hne : k0 ≠ k := by
        intro hk
        exact h.1 (hk ▸ List.mem_map_of_mem Prod.fst hrest)
      simp only [GoMap.get?, hne, if_false]
      exact ih h.2 hrest

theorem GoMap.mem_of_get?_eq_some {α : Type} (m : GoMap α) (k : String) (v : α)
    (h : GoMap.get? m k = some v) : (k, v) ∈ m := by
  induction m with
  | nil => simp [GoMap.get?] at h
  | cons e rest ih =>
    obtain ⟨k0, v0⟩ := e
    by_cases hk : k0 = k
    · simp only [GoMap.get?, hk, if_true, Option.some.injEq] at h
      subst hk; subst h; exact List.mem_cons_self _ _
    · simp only [GoMap.get?, hk, if_false] at h
      exact List.mem_cons_of_mem _ (ih h)

/-! ## The loop of `updateMembers`, record by record -/

theorem isEntryOf_raiseCounter (c : Cluster) (ct : Int) (ips : GoMap String) (m : EtcdMember)
    (name : String) (v : Member) :
    IsEntryOf (raiseCounter c ct) ips m name v ↔ IsEntryOf c ips m name v := by
  simp only [IsEntryOf, raiseCounter_cluster, raiseCounter_securePeer,
    raiseCounter_secureClient]

/-- A pass over `m :: rest` that returns `nil` resolved `m`, decoded its counter, stored its
entry and went on with `rest`. -/
theorem membersLoop_cons_ok (u : NameCodec) (ips : GoMap String) (m : EtcdMember)
    (rest : List EtcdMember) (c c1 : Cluster) (ms : MemberSet)
    (h : membersLoop u ips (m :: rest) c ms = (c1, .ret none)) :
    ∃ name ct v,
      getMemberName u m c.cluster.Name c.cluster.Spec.SelfHosted = .ret (name, none) ∧
      u.GetCounterFromMemberName name = .ok ct ∧
      IsEntryOf c ips m name v ∧
      membersLoop u ips rest (raiseCounter c ct) (GoMap.set ms name v) = (c1, .ret none) := by
  unfold membersLoop at h
  split at h
  · cases h
  · cases h
  · rename_i name hname
    split at h
    · cases h
    · rename_i ct hct
      simp only at h
      split at h
      · rename_i hs
        split at h
        · cases h
        · rename_i podIP hip
          refine ⟨name, ct, _, hname, hct, ?_, h⟩
          rw [← isEntryOf_raiseCounter c ct]
          refine ⟨rfl, rfl, rfl, rfl, rfl, ?_, ?_⟩
          · intro hn; rw [hn] at hs; cases hs
          · intro _; exact ⟨rfl, hip⟩
      · rename_i hs
        refine ⟨name, ct, _, hname, hct, ?_, h⟩
        rw [← isEntryOf_raiseCounter c ct]
        refine ⟨rfl, rfl, rfl, rfl, rfl, ?_, ?_⟩
        · intro _; exact ⟨rfl, rfl⟩
        · intro hn; exact absurd hn hs

theorem membersLoop_ok_frame (u : NameCodec) (ips : GoMap String) :
    ∀ (rest : List EtcdMember) (c c1 : Cluster) (ms : MemberSet),
      membersLoop u ips rest c ms = (c1, .ret none) →
      c1.cluster = c.cluster ∧ c1.securePeer = c.securePeer ∧
        c1.secureClient = c.secureClient := by
  intro rest
  induction rest with
  | nil =>
    intro c c1 ms h
    simp only [membersLoop, Prod.mk.injEq, and_true] at h
    subst h; exact ⟨rfl, rfl, rfl⟩
  | cons m rest ih =>
    intro c c1 ms h
    obtain ⟨name, ct, v, _, _, _, hrest⟩ := membersLoop_cons_ok u ips m rest c c1 ms h
    have := ih _ _ _ hrest
    simpa only [raiseCounter_cluster, raiseCounter_securePeer, raiseCounter_secureClient]
      using this

/-- Where each entry of the installed set comes from: it was in the set under construction and
no later record resolved to its key, or it is the entry of the last record that resolved to
its key. -/
theorem membersLoop_ok_entries (u : NameCodec) (ips : GoMap String) :
    ∀ (rest : List EtcdMember) (c c1 : Cluster) (ms : MemberSet),
      membersLoop u ips rest c ms = (c1, .ret none) →
      ∀ k v, (k, v) ∈ c1.members →
        ((k, v) ∈ ms ∧ ∀ m ∈ rest,
            getMemberName u m c.cluster.Name c.cluster.Spec.SelfHosted ≠ .ret (k, none)) ∨
        ∃ pre m post, rest = pre ++ m :: post ∧
          getMemberName u m c.cluster.Name c.cluster.Spec.SelfHosted = .ret (k, none) ∧
          (∀ m2 ∈ post,
            getMemberName u m2 c.cluster.Name c.cluster.Spec.SelfHosted ≠ .ret (k, none)) ∧
          IsEntryOf c ips m k v := by
  intro rest
  induction rest with
  | nil =>
    intro c c1 ms h k v hkv
    simp only [membersLoop, Prod.mk.injEq, and_true] at h
    subst h
    exact Or.inl ⟨hkv, fun m hm => by cases hm⟩
  | cons m rest ih =>
    intro c c1 ms h k v hkv
    obtain ⟨name, ct, v0, hname, _, hentry, hrest⟩ := membersLoop_cons_ok u ips m rest c c1 ms h
    have hih := ih _ _ _ hrest k v hkv
    simp only [raiseCounter_cluster, isEntryOf_raiseCounter] at hih
    rcases hih with ⟨hmem, hno⟩ | ⟨pre, m2, post, hsplit, hres, hlast, hent⟩
    · rcases (GoMap.mem_set ms name v0 k v).mp hmem with ⟨hk, hv⟩ | ⟨hold, hne⟩
      · subst hk; subst hv
        exact Or.inr ⟨[], m, rest, rfl, hname, hno, hentry⟩
      · refine Or.inl ⟨hold, ?_⟩
        intro m2 hm2
        rcases List.mem_cons.mp hm2 with rfl | hm2
        · rw [hname]
          intro heq
          simp only [Outcome.ret.injEq, Prod.mk.injEq, and_true] at heq
          exact hne heq.symm
        · exact hno m2 hm2
    · exact Or.inr ⟨m :: pre, m2, post, by rw [hsplit]; rfl, hres, hlast, hent⟩

theorem membersLoop_ok_keys (u : NameCodec) (ips : GoMap String) :
    ∀ (rest : List EtcdMember) (c c1 : Cluster) (ms : MemberSet),
      membersLoop u ips rest c ms = (c1, .ret none) →
      (∀ k ∈ GoMap.keys ms, k ∈ GoMap.keys c1.members) ∧
      (∀ m ∈ rest, ∃ name,
        getMemberName u m c.cluster.Name c.cluster.Spec.SelfHosted = .ret (name, none) ∧
        name ∈ GoMap.keys c1.members) := by
  intro rest
  induction rest with
  | nil =>
    intro c c1 ms h
    simp only [membersLoop, Prod.mk.injEq, and_true] at h
    subst h
    exact ⟨fun k hk => hk, fun m hm => by cases hm⟩
  | cons m rest ih =>
    intro c c1 ms h
    obtain ⟨name, ct, v0, hname, _, _, hrest⟩ := membersLoop_cons_ok u ips m rest c c1 ms h
    obtain ⟨hkeep, hcover⟩ := ih _ _ _ hrest
    simp only [raiseCounter_cluster] at hcover
    refine ⟨fun k hk => hkeep k ((GoMap.mem_keys_set ms name v0 k).mpr (Or.inr hk)), ?_⟩
    intro m2 hm2
    rcases List.mem_cons.mp hm2 with rfl | hm2
    · exact ⟨name, hname, hkeep name ((GoMap.mem_keys_set ms name v0 name).mpr (Or.inl rfl))⟩
    · exact hcover m2 hm2

theorem membersLoop_ok_nodup (u : NameCodec) (ips : GoMap String) :
    ∀ (rest : List EtcdMember) (c c1 : Cluster) (ms : MemberSet),
      membersLoop u ips rest c ms = (c1, .ret none) →
      (GoMap.keys ms).Nodup → (GoMap.keys c1.members).Nodup := by
  intro rest
  induction rest with
  | nil =>
    intro c c1 ms h hnd
    simp only [membersLoop, Prod.mk.injEq, and_true] at h
    subst h; exact hnd
  | cons m rest ih =>
    intro c c1 ms h hnd
    obtain ⟨name, ct, v0, _, _, _, hrest⟩ := membersLoop_cons_ok u ips m rest c c1 ms h
    exact ih _ _ _ hrest (GoMap.nodup_keys_set ms name v0 hnd)

/-- The watermark invariant of the loop: the counter exceeds the counter of every stored name,
as long as that counter is below the largest `int`. -/
theorem membersLoop_ok_watermark (u : NameCodec) (ips : GoMap String) :
    ∀ (rest : List EtcdMember) (c c1 : Cluster) (ms : MemberSet),
      membersLoop u ips rest c ms = (c1, .ret none) →
      (∀ k v, (k, v) ∈ ms → ∀ ct, u.GetCounterFromMemberName v.Name = .ok ct →
        ct < 2 ^ 63 - 1 → ct < c.memberCounter) →
      ∀ k v, (k, v) ∈ c1.members → ∀ ct, u.GetCounterFromMemberName v.Name = .ok ct →
        ct < 2 ^ 63 - 1 → ct < c1.memberCounter := by
  intro rest
  induction rest with
  | nil =>
    intro c c1 ms h hinv
    simp only [membersLoop, Prod.mk.injEq, and_true] at h
    subst h; exact hinv
  | cons m rest ih =>
    intro c c1 ms h hinv
    obtain ⟨name, ct0, v0, _, hct0, hentry, hrest⟩ := membersLoop_cons_ok u ips m rest c c1 ms h
    refine ih _ _ _ hrest ?_
    intro k v hkv ct hct hlt
    rcases (GoMap.mem_set ms name v0 k v).mp hkv with ⟨_, hv⟩ | ⟨hold, _⟩
    · subst hv
      rw [hentry.1, hct0] at hct
      have hEq : ct0 = ct := by injection hct
      subst hEq
      exact raiseCounter_gt c ct0 (by omega)
    · exact lt_of_lt_of_le (hinv k v hold ct hct hlt) (raiseCounter_le c ct0)

/-- A pass whose first records `pre` are all processed goes on with the records after them, in
the state reached after `pre`. -/
theorem membersLoop_append (u : NameCodec) (ips : GoMap String) :
    ∀ (pre : List EtcdMember) (c c1 : Cluster) (ms : MemberSet),
      membersLoop u ips pre c ms = (c1, .ret none) →
      ∀ rest, membersLoop u ips (pre ++ rest) c ms =
        membersLoop u ips rest { c1 with members := c.members } c1.members := by
  intro pre
  induction pre with
  | nil =>
    intro c c1 ms h rest
    simp only [membersLoop, Prod.mk.injEq, and_true] at h
    subst h
    rfl
  | cons m pre ih =>
    intro c c1 ms h rest
    rw [List.cons_append]
    unfold membersLoop at h
    conv_lhs => unfold membersLoop
    split at h
    · cases h
    · cases h
    · split at h
      · cases h
      · simp only at h ⊢
        split at h
        · rename_i hs
          simp only [hs, if_true]
          split at h
          · cases h
          · rw [ih _ _ _ h rest, raiseCounter_members]
        · rename_i hs
          rw [ih _ _ _ h rest, raiseCounter_members]
          simp only [hs, Bool.false_eq_true, if_false]

/-- The first record whose name does not resolve ends the pass with its error, wrapped; the
state keeps the counter reached by the records before it and the members of before the pass. -/
theorem reconcileRecords_name_error (u : NameCodec) (w : Collaborators) (c c1 : Cluster)
    (pre post : List EtcdMember) (m : EtcdMember) (name : String) (e : GoError)
    (hpre : reconcileRecords u w c pre = (c1, .ret none))
    (hm : getMemberName u m c.cluster.Name c.cluster.Spec.SelfHosted = .ret (name, some e)) :
    reconcileRecords u w c (pre ++ m :: post) =
      ({ c1 with members := c.members }, .ret (some (.wrap e "get member name failed"))) := by
  unfold reconcileRecords at hpre ⊢
  cases hp : peerPodIPs w c with
  | error err => simp only [hp] at hpre; cases hpre
  | ok ips =>
    simp only [hp] at hpre ⊢
    have hfr := membersLoop_ok_frame u ips pre c c1 [] hpre
    rw [membersLoop_append u ips pre c c1 [] hpre]
    unfold membersLoop
    simp only [hfr.1, hm]

theorem isFatalError_wrap (e : GoError) (msg : String) :
    isFatalError (.wrap e msg) = isFatalError e := by
  simp [isFatalError, GoError.Cause]

theorem isFatalError_newFatalError (reason : String) :
    isFatalError (newFatalError reason) = true := by
  simp [isFatalError, GoError.Cause, newFatalError]

/-! ## `getMemberName`, branch by branch -/

theorem getMemberName_unready (u : NameCodec) (m : EtcdMember) (clusterName : String)
    (sh : SelfHostedPolicy) (p : String) (ps : List String)
    (h : m.Name = "" ∨ m.ClientURLs = []) (hp : m.PeerURLs = p :: ps) :
    getMemberName u m clusterName (some sh) =
      .ret ("", some (newFatalError ("unready self-hosted member (peerURL: " ++ p ++ ")"))) := by
  have hc : m.Name.length = 0 ∨ m.ClientURLs.length = 0 := by
    rcases h with h | h
    · left; rw [h]; rfl
    · right; rw [h]; rfl
  simp only [getMemberName, hc, if_true, hp, index0]

theorem getMemberName_unready_panic (u : NameCodec) (m : EtcdMember) (clusterName : String)
    (sh : SelfHostedPolicy) (h : m.Name = "" ∨ m.ClientURLs = []) (hp : m.PeerURLs = []) :
    getMemberName u m clusterName (some sh) = .panic indexPanic := by
  have hc : m.Name.length = 0 ∨ m.ClientURLs.length = 0 := by
    rcases h with h | h
    · left; rw [h]; rfl
    · right; rw [h]; rfl
  simp only [getMemberName, hc, if_true, hp, index0]

theorem length_ne_zero_of_ne_empty (s : String) (h : s ≠ "") : ¬ s.length = 0 := by
  intro h0
  apply h
  have : s.data = [] := List.length_eq_zero.mp h0
  exact String.ext this

theorem getMemberName_ready (u : NameCodec) (m : EtcdMember) (clusterName : String)
    (sh : SelfHostedPolicy) (curl : String) (cs : List String)
    (hn : m.Name ≠ "") (hc : m.ClientURLs = curl :: cs) :
    getMemberName u m clusterName (some sh) =
      if curl = sh.BootMemberClientEndpoint then
        .ret ("", some (.errorf
          ("skipping for self hosted cluster: waiting for the boot member (" ++ m.Name
            ++ ") to be removed...")))
      else if ¬ HasPrefix m.Name clusterName then
        .ret ("", some (newFatalError
          ("member (" ++ m.Name ++ ") does not belong to this cluster")))
      else .ret (m.Name, none) := by
  have h1 := length_ne_zero_of_ne_empty m.Name hn
  have h2 : ¬ (m.Name.length = 0 ∨ (curl :: cs).length = 0) := by
    simp [h1]
  simp only [getMemberName, hc, h2, if_false, index0]

theorem getMemberName_normal (u : NameCodec) (m : EtcdMember) (clusterName : String)
    (p : String) (ps : List String) (hp : m.PeerURLs = p :: ps) :
    getMemberName u m clusterName none =
      match u.MemberNameFromPeerURL p with
      | .error err =>
        .ret ("", some (newFatalError ("invalid member peerURL (" ++ p ++ "): " ++ err)))
      | .ok name => .ret (name, none) := by
  simp only [getMemberName, hp, index0]

theorem getMemberName_normal_panic (u : NameCodec) (m : EtcdMember) (clusterName : String)
    (hp : m.PeerURLs = []) :
    getMemberName u m clusterName none = .panic indexPanic := by
  simp only [getMemberName, hp, index0]

theorem ret_error_ne_ret_nil {name name2 : String} {e : GoError} :
    (Outcome.ret (name, some e) : Outcome (String × Option GoError)) ≠
      Outcome.ret (name2, none) := by
  intro h
  injection h with h
  injection h with _ h2
  cases h2

/-- The three ways a call of `getMemberName` in self-hosted mode ends. -/
theorem getMemberName_selfHosted_cases (u : NameCodec) (m : EtcdMember) (clusterName : String)
    (sh : SelfHostedPolicy) :
    (getMemberName u m clusterName (some sh) = .panic indexPanic ∧
      (m.Name = "" ∨ m.ClientURLs = []) ∧ m.PeerURLs = []) ∨
    (∃ e, getMemberName u m clusterName (some sh) = .ret ("", some e) ∧
      ¬ ReadyOwned m clusterName sh) ∨
    (getMemberName u m clusterName (some sh) = .ret (m.Name, none) ∧
      ReadyOwned m clusterName sh) := by
  by_cases hun : m.Name = "" ∨ m.ClientURLs = []
  · have hcond : ¬ ReadyOwned m clusterName sh := by
      rintro ⟨h1, h2, _⟩
      rcases hun with h | h
      · exact h1 h
      · exact h2 h
    cases hpu : m.PeerURLs with
    | nil => exact Or.inl ⟨getMemberName_unready_panic u m clusterName sh hun hpu, hun, rfl⟩
    | cons p ps =>
      exact Or.inr (Or.inl ⟨_, getMemberName_unready u m clusterName sh p ps hun hpu, hcond⟩)
  · have hn : m.Name ≠ "" := fun h => hun (Or.inl h)
    have hc : m.ClientURLs ≠ [] := fun h => hun (Or.inr h)
    cases hcu : m.ClientURLs with
    | nil => exact absurd hcu hc
    | cons curl cs =>
      have hg := getMemberName_ready u m clusterName sh curl cs hn hcu
      by_cases hb : curl = sh.BootMemberClientEndpoint
      · rw [if_pos hb] at hg
        refine Or.inr (Or.inl ⟨_, hg, ?_⟩)
        rintro ⟨_, _, h3, _⟩
        apply h3
        rw [hcu, hb]; rfl
      · rw [if_neg hb] at hg
        have hhead : m.ClientURLs.head? ≠ some sh.BootMemberClientEndpoint := by
          rw [hcu]
          intro h
          apply hb
          simpa using h
        by_cases hpf : HasPrefix m.Name clusterName = true
        · rw [if_neg (not_not.mpr hpf)] at hg
          exact Or.inr (Or.inr ⟨hg, hn, hc, hhead, hpf⟩)
        · rw [if_pos hpf] at hg
          exact Or.inr (Or.inl ⟨_, hg, fun h => hpf h.2.2.2⟩)

/-! ## The name codec: decoding an encoded name -/

theorem digitChar_toNat (d : Nat) (h : d < 10) : (digitChar d).toNat = 48 + d := by
  interval_cases d <;> rfl

theorem digitChar_ne_dash (d : Nat) (h : d < 10) : digitChar d ≠ '-' := by
  interval_cases d <;> decide

theorem parseDigits_digitChar (d : Nat) (h : d < 10) (cs : List Char) (acc : Nat) :
    parseDigits (digitChar d :: cs) acc = parseDigits cs (10 * acc + d) := by
  have ht := digitChar_toNat d h
  have h0 : '0'.toNat = 48 := rfl
  have h9 : '9'.toNat = 57 := rfl
  rw [parseDigits, ht, h0, h9]
  have hc : 48 ≤ 48 + d ∧ 48 + d ≤ 57 := ⟨by omega, by omega⟩
  rw [if_pos hc]
  congr 1
  omega

theorem parseDigits_decimalDigits :
    ∀ (fuel n : Nat) (acc : List Char), n < fuel →
      parseDigits (decimalDigits fuel n acc) 0 = parseDigits acc n := by
  intro fuel
  induction fuel with
  | zero => intro n acc h; omega
  | succ fuel ih =>
    intro n acc h
    unfold decimalDigits
    by_cases hn : n < 10
    · rw [if_pos hn, parseDigits_digitChar n hn]
      congr 1
      omega
    · rw [if_neg hn, ih (n / 10) _ (by omega),
        parseDigits_digitChar (n % 10) (Nat.mod_lt n (by omega))]
      congr 1
      omega

theorem dash_not_mem_decimalDigits :
    ∀ (fuel n : Nat) (acc : List Char), '-' ∉ acc → '-' ∉ decimalDigits fuel n acc := by
  intro fuel
  induction fuel with
  | zero => intro n acc h; exact h
  | succ fuel ih =>
    intro n acc h
    unfold decimalDigits
    by_cases hn : n < 10
    · rw [if_pos hn]
      intro hmem
      rcases List.mem_cons.mp hmem with heq | hin
      · exact digitChar_ne_dash n hn heq.symm
      · exact h hin
    · rw [if_neg hn]
      apply ih
      intro hmem
      rcases List.mem_cons.mp hmem with heq | hin
      · exact digitChar_ne_dash (n % 10) (Nat.mod_lt n (by omega)) heq.symm
      · exact h hin

theorem decimalDigits_ne_nil (n : Nat) : decimalDigits (n + 1) n [] ≠ [] := by
  have hp := parseDigits_decimalDigits (n + 1) n [] (by omega)
  intro hnil
  rw [hnil] at hp
  unfold decimalDigits at hnil
  by_cases hn : n < 10
  · rw [if_pos hn] at hnil; cases hnil
  · simp only [parseDigits] at hp
    have : n = 0 := by injection hp with hp; exact hp.symm
    omega

theorem parseDigits_zeros (k : Nat) (cs : List Char) :
    parseDigits (List.replicate k '0' ++ cs) 0 = parseDigits cs 0 := by
  induction k with
  | zero => rfl
  | succ k ih =>
    rw [List.replicate_succ, List.cons_append]
    have h := parseDigits_digitChar 0 (by omega) (List.replicate k '0' ++ cs) 0
    have hz : digitChar 0 = '0' := rfl
    rw [hz] at h
    rw [h, ih]

theorem parseDigits_paddedDecimal (width n : Nat) :
    parseDigits (paddedDecimal width n) 0 = some n := by
  unfold paddedDecimal
  rw [parseDigits_zeros, parseDigits_decimalDigits (n + 1) n [] (by omega)]
  rfl

theorem dash_not_mem_paddedDecimal (width n : Nat) : '-' ∉ paddedDecimal width n := by
  unfold paddedDecimal
  intro h
  rcases List.mem_append.mp h with h | h
  · have := List.eq_of_mem_replicate h
    exact absurd this (by decide)
  · exact dash_not_mem_decimalDigits (n + 1) n [] (by simp) h

theorem paddedDecimal_ne_nil (width n : Nat) : paddedDecimal width n ≠ [] := by
  unfold paddedDecimal
  intro h
  exact decimalDigits_ne_nil n (List.append_eq_nil.mp h).2

theorem afterLastDash_of_not_mem (cs : List Char) (h : '-' ∉ cs) : afterLastDash cs = none := by
  induction cs with
  | nil => rfl
  | cons c cs ih =>
    have hc : c ≠ '-' := fun heq => h (heq ▸ List.mem_cons_self _ _)
    have hcs : '-' ∉ cs := fun hin => h (List.mem_cons_of_mem _ hin)
    simp only [afterLastDash, ih hcs, hc, if_false]

theorem afterLastDash_append (xs ys s : List Char) (h : afterLastDash ys = some s) :
    afterLastDash (xs ++ ys) = some s := by
  induction xs with
  | nil => exact h
  | cons x xs ih =>
    rw [List.cons_append]
    unfold afterLastDash
    rw [ih]

theorem afterLastDash_dash (xs ds : List Char) (h : '-' ∉ ds) :
    afterLastDash (xs ++ '-' :: ds) = some ds := by
  apply afterLastDash_append
  simp only [afterLastDash, afterLastDash_of_not_mem ds h, if_true]

/-- Decoding the digits written after the last `-` of a name. -/
theorem getCounter_of_suffix (pre : List Char) (width n : Nat) (hn : n < 2 ^ 63) :
    GetCounterFromMemberName (String.mk (pre ++ '-' :: paddedDecimal width n)) =
      .ok (Int.ofNat n) := by
  unfold GetCounterFromMemberName
  simp only [afterLastDash_dash pre _ (dash_not_mem_paddedDecimal width n)]
  cases hd : paddedDecimal width n with
  | nil => exact absurd hd (paddedDecimal_ne_nil width n)
  | cons d ds =>
    simp only
    rw [← hd, parseDigits_paddedDecimal]
    simp only [hn, if_true]

/-- The round trip of the codec on the counters a cluster uses: non-negative values of `int`. -/
theorem getCounter_createMemberName (clusterName : String) (c : Int) (h0 : 0 ≤ c)
    (hlt : c < 2 ^ 63) :
    GetCounterFromMemberName (CreateMemberName clusterName c) = .ok c := by
  cases c with
  | ofNat n =>
    have hn : n < 2 ^ 63 := by
      have : (n : Int) < 2 ^ 63 := hlt
      exact_mod_cast this
    have hname : CreateMemberName clusterName (Int.ofNat n) =
        String.mk (clusterName.data ++ '-' :: paddedDecimal 4 n) := by
      unfold CreateMemberName
      apply String.ext
      simp [String.data_append]
    rw [hname]
    exact getCounter_of_suffix _ 4 n hn
  | negSucc n => exact absurd h0 (by simp [Int.negSucc_lt_zero])

/-! ## The loop of `updateMembers`: the record at which a pass stops -/

theorem membersLoop_cons_decode_error (u : NameCodec) (ips : GoMap String) (m : EtcdMember)
    (post : List EtcdMember) (c : Cluster) (ms : MemberSet) (name err : String)
    (hname : getMemberName u m c.cluster.Name c.cluster.Spec.SelfHosted = .ret (name, none))
    (hdec : u.GetCounterFromMemberName name = .error err) :
    membersLoop u ips (m :: post) c ms =
      (c, .ret (some (newFatalError
        ("get counter from member name (" ++ name ++ ") failed: " ++ err)))) := by
  unfold membersLoop
  simp only [hname, hdec]

theorem membersLoop_cons_no_pod (u : NameCodec) (ips : GoMap String) (m : EtcdMember)
    (post : List EtcdMember) (c : Cluster) (ms : MemberSet) (name : String) (ct : Int)
    (hname : getMemberName u m c.cluster.Name c.cluster.Spec.SelfHosted = .ret (name, none))
    (hdec : u.GetCounterFromMemberName name = .ok ct)
    (hs : c.cluster.Spec.SelfHosted.isSome = true) (hip : GoMap.get? ips m.Name = none) :
    membersLoop u ips (m :: post) c ms =
      (raiseCounter c ct, .ret (some (newFatalError
        ("could not get podIP for " ++ m.Name ++ " member (ID " ++ toString m.ID ++ ")")))) := by
  unfold membersLoop
  simp only [hname, hdec, raiseCounter_cluster, hs, if_true, hip]

/-- A pass whose first records `pre` are processed without error goes on with the records after
them: the counter is the one reached after `pre`, the tracked members are still those of
before the pass. -/
theorem reconcileRecords_append (u : NameCodec) (w : Collaborators) (c : Cluster)
    (pre rest : List EtcdMember) (hpre : (reconcileRecords u w c pre).2 = .ret none) :
    ∃ ips, peerPodIPs w c = .ok ips ∧
      (reconcileRecords u w c pre).1.cluster = c.cluster ∧
      reconcileRecords u w c (pre ++ rest) =
        membersLoop u ips rest { (reconcileRecords u w c pre).1 with members := c.members }
          (reconcileRecords u w c pre).1.members := by
  unfold reconcileRecords at hpre ⊢
  cases hp : peerPodIPs w c with
  | error err => simp only [hp] at hpre; cases hpre
  | ok ips =>
    simp only [hp] at hpre ⊢
    have hpre2 : membersLoop u ips pre c [] = ((membersLoop u ips pre c []).1, .ret none) :=
      Prod.ext rfl hpre
    exact ⟨ips, rfl, (membersLoop_ok_frame u ips pre c _ [] hpre2).1,
      membersLoop_append u ips pre c _ [] hpre2 rest⟩

theorem updateMembers_eq_reconcileRecords (u : NameCodec) (w : Collaborators) (c : Cluster)
    (known : MemberSet) (resp : List EtcdMember) (hl : w.ListMembers known = .ok resp) :
    updateMembers u w c known = reconcileRecords u w c resp := by
  unfold updateMembers; rw [hl]

/-- In self-hosted mode a name returned without error is the reported name. -/
theorem getMemberName_selfHosted_name (u : NameCodec) (m : EtcdMember) (clusterName : String)
    (sh : SelfHostedPolicy) (name : String)
    (h : getMemberName u m clusterName (some sh) = .ret (name, none)) : name = m.Name := by
  rcases getMemberName_selfHosted_cases u m clusterName sh with
    ⟨hg, _, _⟩ | ⟨e, hg, _⟩ | ⟨hg, _⟩
  · rw [hg] at h; cases h
  · rw [hg] at h; exact absurd h ret_error_ne_ret_nil
  · rw [hg] at h
    injection h with h
    injection h with h1 _
    exact h1.symm

/-! ## The address index -/

theorem GoMap.get?_set {α : Type} (m : GoMap α) (k : String) (v : α) (k2 : String) :
    GoMap.get? (GoMap.set m k v) k2 = if k = k2 then some v else GoMap.get? m k2 := by
  by_cases hk : k = k2
  · simp [GoMap.set, GoMap.get?, hk]
  · simp only [GoMap.set, GoMap.get?, hk, if_false]
    induction m with
    | nil => rfl
    | cons e rest ih =>
      obtain ⟨k0, v0⟩ := e
      by_cases h0 : k0 = k
      · have hne : k0 ≠ k2 := fun h => hk (h0 ▸ h)
        simp only [List.filter, h0, ne_eq, not_true_eq_false, decide_False, GoMap.get?]
        rw [← h0] at ih ⊢
        simp only [hne, if_false]
        simpa [h0] using ih
      · simp only [List.filter, ne_eq, h0, not_false_eq_true, decide_True, GoMap.get?]
        rw [ih]

theorem carriesLabels_iff (clusterName node : String) (p : Pod) :
    carriesLabels clusterName node p = true ↔
      GoMap.getD p.Labels "etcd_cluster" = clusterName ∧
        GoMap.getD p.Labels "etcd_node" = node := by
  simp [carriesLabels]

theorem buildPeerPodIPs_cons (clusterName : String) (p : Pod) (rest : List Pod)
    (acc : GoMap String) :
    buildPeerPodIPs clusterName (p :: rest) acc =
      if GoMap.getD p.Labels "etcd_cluster" = clusterName then
        buildPeerPodIPs clusterName rest
          (GoMap.set acc (GoMap.getD p.Labels "etcd_node") p.Status.PodIP)
      else buildPeerPodIPs clusterName rest acc := by
  rw [buildPeerPodIPs]

/-- A member that no listed pod carries the labels of has the entry of the initial index. -/
theorem get?_buildPeerPodIPs_of_none (clusterName node : String) :
    ∀ (pods : List Pod) (acc : GoMap String),
      (∀ q ∈ pods, carriesLabels clusterName node q = false) →
      GoMap.get? (buildPeerPodIPs clusterName pods acc) node = GoMap.get? acc node := by
  intro pods
  induction pods with
  | nil => intro acc _; rfl
  | cons p rest ih =>
    intro acc h
    have hrest : ∀ q ∈ rest, carriesLabels clusterName node q = false :=
      fun q hq => h q (List.mem_cons_of_mem _ hq)
    have hp : ¬ (carriesLabels clusterName node p = true) := by
      rw [h p (List.mem_cons_self _ _)]; simp
    rw [carriesLabels_iff] at hp
    rw [buildPeerPodIPs_cons]
    by_cases hc : GoMap.getD p.Labels "etcd_cluster" = clusterName
    · have hn : GoMap.getD p.Labels "etcd_node" ≠ node := fun hn => hp ⟨hc, hn⟩
      rw [if_pos hc, ih _ hrest, GoMap.get?_set, if_neg hn]
    · rw [if_neg hc, ih _ hrest]

/-- The address the index holds for a member is the address of the last listed pod that carries
the member's labels, or the entry of the initial index when no pod does. -/
theorem get?_buildPeerPodIPs (clusterName node : String) :
    ∀ (pods : List Pod) (acc : GoMap String) (ip : String),
      GoMap.get? (buildPeerPodIPs clusterName pods acc) node = some ip →
      (∃ pre p post, pods = pre ++ p :: post ∧ carriesLabels clusterName node p = true ∧
        (∀ q ∈ post, carriesLabels clusterName node q = false) ∧ p.Status.PodIP = ip) ∨
      (GoMap.get? acc node = some ip ∧ ∀ q ∈ pods, carriesLabels clusterName node q = false) := by
  intro pods
  induction pods with
  | nil => intro acc ip h; exact Or.inr ⟨h, fun q hq => by cases hq⟩
  | cons p rest ih =>
    intro acc ip h
    rw [buildPeerPodIPs_cons] at h
    by_cases hc : GoMap.getD p.Labels "etcd_cluster" = clusterName
    · rw [if_pos hc] at h
      rcases ih _ ip h with ⟨pre, p2, post, hsplit, hp2, hlast, hip⟩ | ⟨hacc, hnone⟩
      · exact Or.inl ⟨p :: pre, p2, post, by rw [hsplit]; rfl, hp2, hlast, hip⟩
      · rw [GoMap.get?_set] at hacc
        by_cases hn : GoMap.getD p.Labels "etcd_node" = node
        · rw [if_pos hn] at hacc
          injection hacc with hacc
          exact Or.inl ⟨[], p, rest, rfl, (carriesLabels_iff _ _ _).mpr ⟨hc, hn⟩, hnone, hacc⟩
        · rw [if_neg hn] at hacc
          refine Or.inr ⟨hacc, fun q hq => ?_⟩
          rcases List.mem_cons.mp hq with rfl | hq
          · cases hcl : carriesLabels clusterName node q with
            | false => rfl
            | true => exact absurd ((carriesLabels_iff _ _ _).mp hcl).2 hn
          · exact hnone q hq
    · rw [if_neg hc] at h
      rcases ih _ ip h with ⟨pre, p2, post, hsplit, hp2, hlast, hip⟩ | ⟨hacc, hnone⟩
      · exact Or.inl ⟨p :: pre, p2, post, by rw [hsplit]; rfl, hp2, hlast, hip⟩
      · refine Or.inr ⟨hacc, fun q hq => ?_⟩
        rcases List.mem_cons.mp hq with rfl | hq
        · cases hcl : carriesLabels clusterName node q with
          | false => rfl
          | true => exact absurd ((carriesLabels_iff _ _ _).mp hcl).1 hc
        · exact hnone q hq

/-- Pods of other clusters do not take part in the index. -/
theorem buildPeerPodIPs_filter (clusterName : String) :
    ∀ (pods : List Pod) (acc : GoMap String),
      buildPeerPodIPs clusterName
        (pods.filter (fun p => decide (GoMap.getD p.Labels "etcd_cluster" = clusterName))) acc =
      buildPeerPodIPs clusterName pods acc := by
  intro pods
  induction pods with
  | nil => intro acc; rfl
  | cons p rest ih =>
    intro acc
    by_cases hc : GoMap.getD p.Labels "etcd_cluster" = clusterName
    · rw [List.filter_cons_of_pos (by simpa using hc), buildPeerPodIPs_cons,
        buildPeerPodIPs_cons, if_pos hc, if_pos hc, ih]
    · rw [List.filter_cons_of_neg (by simpa using hc), buildPeerPodIPs_cons, if_neg hc, ih]

/-! ## The counter after a pass -/

theorem wrapInt_eq (x : Int) (h1 : -2 ^ 63 ≤ x) (h2 : x < 2 ^ 63) : wrapInt x = x := by
  unfold wrapInt; omega

theorem raiseCounter_memberCounter (c : Cluster) (ct : Int) :
    (raiseCounter c ct).memberCounter = max c.memberCounter (wrapInt (ct + 1)) := by
  unfold raiseCounter
  split
  · simp only; omega
  · omega

theorem membersLoop_memberCounter (u : NameCodec) (ips : GoMap String) :
    ∀ (rest : List EtcdMember) (c : Cluster) (ms : MemberSet),
      (membersLoop u ips rest c ms).1.memberCounter =
        (resolvedCounters u ips c.cluster rest).foldl
          (fun acc ct => max acc (wrapInt (ct + 1))) c.memberCounter := by
  intro rest
  induction rest with
  | nil => intro c ms; rfl
  | cons m rest ih =>
    intro c ms
    unfold membersLoop resolvedCounters
    cases hg : getMemberName u m c.cluster.Name c.cluster.Spec.SelfHosted with
    | panic r => rfl
    | ret pr =>
      obtain ⟨name, oe⟩ := pr
      cases oe with
      | some e => rfl
      | none =>
        simp only
        cases hd : u.GetCounterFromMemberName name with
        | error err => rfl
        | ok ct =>
          simp only [raiseCounter_cluster]
          by_cases hs : c.cluster.Spec.SelfHosted.isSome = true
          · simp only [hs, if_true, true_and]
            cases hip : GoMap.get? ips m.Name with
            | none =>
              simp only [if_true, List.foldl_cons, List.foldl_nil, raiseCounter_memberCounter]
            | some podIP =>
              rw [ih, raiseCounter_cluster, raiseCounter_memberCounter]
              simp
          · simp only [hs, false_and, if_false, List.foldl_cons, Bool.false_eq_true]
            rw [ih, raiseCounter_cluster, raiseCounter_memberCounter]

theorem updateMembers_memberCounter (u : NameCodec) (w : Collaborators) (c : Cluster)
    (known : MemberSet) :
    (updateMembers u w c known).1.memberCounter =
      (countersSeen u w c known).foldl
        (fun acc ct => max acc (wrapInt (ct + 1))) c.memberCounter := by
  unfold updateMembers reconcileRecords countersSeen
  cases w.ListMembers known with
  | error err => rfl
  | ok resp =>
    cases peerPodIPs w c with
    | error err => rfl
    | ok ips => exact membersLoop_memberCounter u ips resp c []

theorem foldl_max_wrapInt (cts : List Int) :
    ∀ (start : Int), (∀ ct ∈ cts, -2 ^ 63 ≤ ct ∧ ct < 2 ^ 63 - 1) →
      cts.foldl (fun acc ct => max acc (wrapInt (ct + 1))) start =
        cts.foldl (fun acc ct => max acc (ct + 1)) start := by
  induction cts with
  | nil => intro start _; rfl
  | cons ct cts ih =>
    intro start h
    have hct := h ct (List.mem_cons_self _ _)
    rw [List.foldl_cons, List.foldl_cons, wrapInt_eq (ct + 1) (by omega) (by omega)]
    exact ih _ (fun x hx => h x (List.mem_cons_of_mem _ hx))

/-- After a pass that returns nil every installed entry is keyed by its own name. -/
theorem updateMembers_ok_names (u : NameCodec) (w : Collaborators) (c c1 : Cluster)
    (known : MemberSet) (h : updateMembers u w c known = (c1, .ret none)) :
    ∀ k v, (k, v) ∈ c1.members → v.Name = k := by
  obtain ⟨resp, ips, _, _, hloop⟩ := updateMembers_ok u w c c1 known h
  intro k v hkv
  rcases membersLoop_ok_entries u ips resp c c1 [] hloop k v hkv with
    ⟨hnil, _⟩ | ⟨_, _, _, _, _, _, he⟩
  · cases hnil
  · exact he.1

/-- After a pass that returns nil the counter exceeds the counter of every installed name whose
counter is below the largest `int`. -/
theorem updateMembers_ok_watermark (u : NameCodec) (w : Collaborators) (c c1 : Cluster)
    (known : MemberSet) (h : updateMembers u w c known = (c1, .ret none)) :
    ∀ k v, (k, v) ∈ c1.members → ∀ ct, u.GetCounterFromMemberName v.Name = .ok ct →
      ct < 2 ^ 63 - 1 → ct < c1.memberCounter := by
  obtain ⟨resp, ips, _, _, hloop⟩ := updateMembers_ok u w c c1 known h
  exact membersLoop_ok_watermark u ips resp c c1 [] hloop (fun _ _ hmem => by cases hmem)

/-! ## The ownership test -/

theorem hasPrefix_iff (name clusterName : String) :
    HasPrefix name clusterName = true ↔ ∃ rest : String, name = clusterName ++ rest := by
  unfold HasPrefix
  rw [List.isPrefixOf_iff_prefix]
  constructor
  · rintro ⟨t, ht⟩
    refine ⟨String.mk t, ?_⟩
    apply String.ext
    rw [String.data_append, ← ht]
  · rintro ⟨rest, hrest⟩
    refine ⟨rest.data, ?_⟩
    rw [hrest, String.data_append]

theorem hasPrefix_createMemberName (clusterName : String) (c : Int) :
    HasPrefix (CreateMemberName clusterName c) clusterName = true := by
  rw [hasPrefix_iff]
  cases c with
  | ofNat n => exact ⟨"-" ++ String.mk (paddedDecimal 4 n), by
      simp only [CreateMemberName, String.append_assoc]⟩
  | negSucc n => exact ⟨"-" ++ String.mk ('-' :: paddedDecimal 3 (n + 1)), by
      simp only [CreateMemberName, String.append_assoc]⟩

/-- A name generated for cluster `foo` has `-` as its fourth character. -/
theorem createMemberName_foo_data (c : Int) :
    ∃ rest, (CreateMemberName "foo" c).data = 'f' :: 'o' :: 'o' :: '-' :: rest := by
  cases c with
  | ofNat n => exact ⟨paddedDecimal 4 n, by
      simp only [CreateMemberName, String.data_append]; rfl⟩
  | negSucc n => exact ⟨'-' :: paddedDecimal 3 (n + 1), by
      simp only [CreateMemberName, String.data_append]; rfl⟩

/-! ## Pod readiness -/

theorem firstReadyCondition_eq_some (cond : PodCondition) :
    ∀ conds : List PodCondition,
      firstReadyCondition conds = some cond ↔
        ∃ pre post, conds = pre ++ cond :: post ∧ (∀ x ∈ pre, x.Type_ ≠ PodReady) ∧
          cond.Type_ = PodReady := by
  intro conds
  induction conds with
  | nil =>
    constructor
    · intro h; cases h
    · rintro ⟨pre, post, h, _⟩
      cases pre <;> cases h
  | cons x rest ih =>
    unfold firstReadyCondition
    by_cases hx : x.Type_ = PodReady
    · rw [if_pos hx]
      constructor
      · intro h
        injection h with h
        subst h
        exact ⟨[], rest, rfl, fun y hy => absurd hy (List.not_mem_nil y), hx⟩
      · rintro ⟨pre, post, h, hpre, _⟩
        cases pre with
        | nil =>
          injection h with h1 _
          rw [h1]
        | cons y pre =>
          injection h with h1 _
          exact absurd (h1 ▸ hx) (hpre y (List.mem_cons_self _ _))
    · rw [if_neg hx, ih]
      constructor
      · rintro ⟨pre, post, h, hpre, hc⟩
        refine ⟨x :: pre, post, by rw [h]; rfl, ?_, hc⟩
        intro y hy
        rcases List.mem_cons.mp hy with rfl | hy
        · exact hx
        · exact hpre y hy
      · rintro ⟨pre, post, h, hpre, hc⟩
        cases pre with
        | nil =>
          injection h with h1 _
          exact absurd (h1 ▸ hc) hx
        | cons y pre =>
          injection h with _ h2
          exact ⟨pre, post, h2, fun z hz => hpre z (List.mem_cons_of_mem _ hz), hc⟩

/-! ## The claims -/

/-- Claim C1. All-or-nothing: whatever the cluster state, the store's answer and the pod
listing, a call of `updateMembers` that returns a non-nil error leaves `c.members` equal to
what it was before the call. -/
theorem updateMembers_all_or_nothing (u : NameCodec) (w : Collaborators) (c : Cluster)
    (known : MemberSet) (err : GoError)
    (h : (updateMembers u w c known).2 = .ret (some err)) :
    (updateMembers u w c known).1.members = c.members :=
  updateMembers_members_of_error u w c known (by rw [h]; simp)

/-- Witness of claim C1: the store reports a healthy record followed by one with an unparsable
peer URL; the pass fails at the second record and the tracked members are those of before. -/
theorem updateMembers_all_or_nothing_witness :
    (updateMembers etcdutil
        (answering [fooRecord 1 "0007", ⟨2, "foo-0008", ["foo-0008"], []⟩] []) fooCluster []).2
      = .ret (some (.wrap (.fatal "invalid member peerURL (foo-0008): parse foo-0008: missing scheme")
          "get member name failed")) ∧
    (updateMembers etcdutil
        (answering [fooRecord 1 "0007", ⟨2, "foo-0008", ["foo-0008"], []⟩] []) fooCluster []).1.members
      = fooCluster.members :=
  ⟨by decide, updateMembers_all_or_nothing _ _ _ _
    (.wrap (.fatal "invalid member peerURL (foo-0008): parse foo-0008: missing scheme")
      "get member name failed") (by decide)⟩

/-- Claim C2. Counter monotonicity: after any call of `updateMembers`, whether it returns nil,
returns an error or panics, `c.memberCounter` is at least what it was before; hence the value
after one more pass of a sequence is at least the value before that pass. -/
theorem memberCounter_monotone (u : NameCodec) (w : Collaborators) (c : Cluster)
    (known : MemberSet) (ps : List Pass) (p : Pass) :
    c.memberCounter ≤ (updateMembers u w c known).1.memberCounter ∧
    (runPasses u c ps).memberCounter ≤ (runPasses u c (ps ++ [p])).memberCounter := by
  refine ⟨updateMembers_counter_le u w c known, ?_⟩
  rw [runPasses_append]
  exact runPasses_counter_le u [p] _

/-- Counterexample to claim C3 as stated: a record whose name carries the counter `2^63 - 1`.
The pass succeeds and installs the member, `ct + 1` wraps around to the smallest `int`, and
`c.memberCounter` stays `0`, which is not above the member's counter. -/
theorem memberCounter_watermark_counterexample :
    updateMembers etcdutil (answering [maxCounterRecord] []) freshCluster [] =
      ({ freshCluster with
          members := [("foo-9223372036854775807",
            ⟨"foo-9223372036854775807", "default", 9, "", false, true, false⟩)],
          memberCounter := 0 }, .ret none) ∧
    etcdutil.GetCounterFromMemberName "foo-9223372036854775807" = .ok 9223372036854775807 ∧
    ¬ ((9223372036854775807 : Int) <
      (updateMembers etcdutil (answering [maxCounterRecord] []) freshCluster []).1.memberCounter) := by
  refine ⟨by decide, by decide, by decide⟩

/-- Claim C3, amended. Counter watermark: after a pass of `updateMembers` that returns nil,
`c.memberCounter` is strictly greater than the counter decoded from the name of every installed
member whose counter is below the largest `int` value `2^63 - 1`, and it stays so after any
sequence of later passes. -/
theorem memberCounter_watermark (u : NameCodec) (w : Collaborators) (c c1 : Cluster)
    (known : MemberSet) (h : updateMembers u w c known = (c1, .ret none))
    (ps : List Pass) (k : String) (v : Member) (hkv : (k, v) ∈ c1.members) (ct : Int)
    (hct : u.GetCounterFromMemberName v.Name = .ok ct) (hlt : ct < 2 ^ 63 - 1) :
    ct < c1.memberCounter ∧ ct < (runPasses u c1 ps).memberCounter := by
  obtain ⟨resp, ips, _, _, hloop⟩ := updateMembers_ok u w c c1 known h
  have hnow : ct < c1.memberCounter :=
    membersLoop_ok_watermark u ips resp c c1 [] hloop
      (fun _ _ hmem => by cases hmem) k v hkv ct hct hlt
  exact ⟨hnow, lt_of_lt_of_le hnow (runPasses_counter_le u ps c1)⟩

/-- Witness of claim C3: the store reports `foo-0007` and `foo-0008`; the counter becomes `9`,
above the counter `8` of `foo-0008`, and stays there after a later pass that fails. -/
theorem memberCounter_watermark_witness :
    updateMembers etcdutil (answering [fooRecord 1 "0007", fooRecord 2 "0008"] []) fooCluster []
      = (afterTwo, .ret none) ∧
    ((8 : Int) < afterTwo.memberCounter ∧
      (8 : Int) < (runPasses etcdutil afterTwo [⟨storeDown, []⟩]).memberCounter) :=
  ⟨by decide,
   memberCounter_watermark etcdutil (answering [fooRecord 1 "0007", fooRecord 2 "0008"] [])
     fooCluster afterTwo [] (by decide) [⟨storeDown, []⟩] "foo-0008"
     ⟨"foo-0008", "default", 2, "", false, true, false⟩ (by decide) 8 (by decide) (by decide)⟩

/-- Counterexample to claim C4 as stated. A record at the boot endpoint that reports no name is
an unready member, and `getMemberName` answers with a Fatal error; and a response in which a
record of another cluster precedes the boot record makes `updateMembers` return a Fatal
error. -/
theorem boot_member_deferral_counterexample :
    getMemberName etcdutil namelessBootRecord "foo" (some bootPolicy) =
      .ret ("", some (.fatal "unready self-hosted member (peerURL: http://boot:2380)")) ∧
    isFatalError (.fatal "unready self-hosted member (peerURL: http://boot:2380)") = true ∧
    (updateMembers etcdutil (answering [barRecord, bootRecord] []) fooSelfHosted []).2 =
      .ret (some (.wrap (.fatal "member (bar-0000) does not belong to this cluster")
        "get member name failed")) ∧
    isFatalError (.wrap (.fatal "member (bar-0000) does not belong to this cluster")
        "get member name failed") = true := by
  refine ⟨by decide, by decide, by decide, by decide⟩

/-- Claim C4, amended. Self-hosted boot-member deferral: for every record with a non-empty
reported name whose first client URL equals the boot-member client endpoint, `getMemberName`
returns a non-Fatal error, whatever the cluster name, the peer URLs and the further client URLs;
and when the store reports such a record after records that are all processed without error,
`updateMembers` returns a non-Fatal error and leaves `c.members` unchanged. -/
theorem boot_member_deferral (u : NameCodec) (m : EtcdMember) (sh : SelfHostedPolicy)
    (cs : List String) (hn : m.Name ≠ "")
    (hc : m.ClientURLs = sh.BootMemberClientEndpoint :: cs) :
    (∀ clusterName, ∃ e, getMemberName u m clusterName (some sh) = .ret ("", some e) ∧
      isFatalError e = false) ∧
    (∀ (w : Collaborators) (c : Cluster) (known : MemberSet) (pre post : List EtcdMember),
      c.cluster.Spec.SelfHosted = some sh →
      w.ListMembers known = .ok (pre ++ m :: post) →
      (reconcileRecords u w c pre).2 = .ret none →
      ∃ e, (updateMembers u w c known).2 = .ret (some e) ∧ isFatalError e = false ∧
        (updateMembers u w c known).1.members = c.members) := by
  have hg : ∀ clusterName, getMemberName u m clusterName (some sh) =
      .ret ("", some (.errorf
        ("skipping for self hosted cluster: waiting for the boot member (" ++ m.Name
          ++ ") to be removed..."))) := by
    intro clusterName
    rw [getMemberName_ready u m clusterName sh _ cs hn hc]
    simp
  refine ⟨fun clusterName => ⟨_, hg clusterName, rfl⟩, ?_⟩
  intro w c known pre post hs hl hpre
  have hpre2 : reconcileRecords u w c pre = ((reconcileRecords u w c pre).1, .ret none) :=
    Prod.ext rfl hpre
  have hm := hg c.cluster.Name
  rw [← hs] at hm
  have hres := reconcileRecords_name_error u w c _ pre post m "" _ hpre2 hm
  have hu : updateMembers u w c known = reconcileRecords u w c (pre ++ m :: post) := by
    unfold updateMembers; rw [hl]
  rw [hu, hres]
  exact ⟨_, rfl, by rw [isFatalError_wrap]; rfl, rfl⟩

/-- Witness of claim C4: the store of a self-hosted cluster reports the member `foo-0001`, whose
pod is listed, and then the running boot member; the pass ends with the ordinary "waiting for
the boot member" error and the tracked members are those of before. -/
theorem boot_member_deferral_witness :
    (bootRecord.Name ≠ "" ∧
      bootRecord.ClientURLs = bootPolicy.BootMemberClientEndpoint :: ["http://127.0.0.1:2379"] ∧
      fooSelfHosted.cluster.Spec.SelfHosted = some bootPolicy ∧
      (reconcileRecords etcdutil
        (answering [selfHostedRecord, bootRecord] [fooPod "foo-0001" "10.0.0.1"])
        fooSelfHosted [selfHostedRecord]).2 = .ret none) ∧
    ((∃ e, getMemberName etcdutil bootRecord "foo" (some bootPolicy) = .ret ("", some e) ∧
        isFatalError e = false) ∧
      ∃ e, (updateMembers etcdutil
          (answering [selfHostedRecord, bootRecord] [fooPod "foo-0001" "10.0.0.1"])
          fooSelfHosted []).2 = .ret (some e) ∧ isFatalError e = false ∧
        (updateMembers etcdutil
          (answering [selfHostedRecord, bootRecord] [fooPod "foo-0001" "10.0.0.1"])
          fooSelfHosted []).1.members = fooSelfHosted.members) :=
  ⟨⟨by decide, by decide, by decide, by decide⟩,
   (boot_member_deferral etcdutil bootRecord bootPolicy ["http://127.0.0.1:2379"]
      (by decide) (by decide)).1 "foo",
   (boot_member_deferral etcdutil bootRecord bootPolicy ["http://127.0.0.1:2379"]
      (by decide) (by decide)).2
      (answering [selfHostedRecord, bootRecord] [fooPod "foo-0001" "10.0.0.1"])
      fooSelfHosted [] [selfHostedRecord] [] (by decide) (by decide) (by decide)⟩

/-- Counterexample to claim C6 as stated: in normal mode a record with an empty `PeerURLs` list
makes `getMemberName` panic on `m.PeerURLs[0]`; it does not return an error value. -/
theorem getMemberName_normal_mode_counterexample :
    noPeerRecord.PeerURLs = [] ∧
    getMemberName etcdutil noPeerRecord "foo" none = .panic indexPanic := by
  refine ⟨by decide, by decide⟩

/-- Claim C6, amended. Normal mode (`selfHosted == nil`): for every record with a non-empty
`PeerURLs` list, if `MemberNameFromPeerURL` cannot parse the first peer URL then `getMemberName`
returns a Fatal error, and if it parses then `getMemberName` returns exactly the name
`MemberNameFromPeerURL` derives, with no error. -/
theorem getMemberName_normal_mode (u : NameCodec) (m : EtcdMember) (clusterName : String)
    (p : String) (ps : List String) (hp : m.PeerURLs = p :: ps) :
    (∀ err, u.MemberNameFromPeerURL p = .error err →
      ∃ e, getMemberName u m clusterName none = .ret ("", some e) ∧ isFatalError e = true) ∧
    (∀ name, u.MemberNameFromPeerURL p = .ok name →
      getMemberName u m clusterName none = .ret (name, none)) := by
  rw [getMemberName_normal u m clusterName p ps hp]
  constructor
  · intro err herr
    rw [herr]
    exact ⟨_, rfl, isFatalError_newFatalError _⟩
  · intro name hname
    rw [hname]

/-- Witness of claim C6: a peer URL without a scheme gives a Fatal error, and the peer URL of
`foo-0007` gives the name `foo-0007`. -/
theorem getMemberName_normal_mode_witness :
    (brokenPeerRecord.PeerURLs = "foo-0008" :: [] ∧
      etcdutil.MemberNameFromPeerURL "foo-0008" = .error "parse foo-0008: missing scheme" ∧
      (fooRecord 1 "0007").PeerURLs = "http://foo-0007.foo.default.svc:2380" :: [] ∧
      etcdutil.MemberNameFromPeerURL "http://foo-0007.foo.default.svc:2380" = .ok "foo-0007") ∧
    ((∃ e, getMemberName etcdutil brokenPeerRecord "foo" none = .ret ("", some e) ∧
        isFatalError e = true) ∧
      getMemberName etcdutil (fooRecord 1 "0007") "foo" none = .ret ("foo-0007", none)) :=
  ⟨⟨by decide, by decide, by decide, by decide⟩,
   (getMemberName_normal_mode etcdutil brokenPeerRecord "foo" "foo-0008" [] (by decide)).1
      "parse foo-0008: missing scheme" (by decide),
   (getMemberName_normal_mode etcdutil (fooRecord 1 "0007") "foo"
      "http://foo-0007.foo.default.svc:2380" [] (by decide)).2 "foo-0007" (by decide)⟩

/-- Counterexample to claim C7 as stated: in self-hosted mode an unready record whose `PeerURLs`
list is empty makes `getMemberName` panic while it formats the error message with
`m.PeerURLs[0]`; no Fatal error is returned. -/
theorem unready_member_counterexample :
    blankRecord.Name = "" ∧ blankRecord.PeerURLs = [] ∧
    getMemberName etcdutil blankRecord "foo" (some bootPolicy) = .panic indexPanic := by
  refine ⟨by decide, by decide, by decide⟩

/-- Claim C7, amended. Self-hosted mode, unready member: for every record with an empty reported
name or an empty `ClientURLs` list, and with at least one peer URL, `getMemberName` returns a
Fatal error. -/
theorem unready_member_fatal (u : NameCodec) (m : EtcdMember) (clusterName : String)
    (sh : SelfHostedPolicy) (h : m.Name = "" ∨ m.ClientURLs = []) (hp : m.PeerURLs ≠ []) :
    ∃ e, getMemberName u m clusterName (some sh) = .ret ("", some e) ∧
      isFatalError e = true := by
  cases hpu : m.PeerURLs with
  | nil => exact absurd hpu hp
  | cons p ps =>
    exact ⟨_, getMemberName_unready u m clusterName sh p ps h hpu, isFatalError_newFatalError _⟩

/-- Witness of claim C7: a member that was added and has not started, known by its peer URL
only. -/
theorem unready_member_fatal_witness :
    ((unstartedRecord.Name = "" ∨ unstartedRecord.ClientURLs = []) ∧
      unstartedRecord.PeerURLs ≠ []) ∧
    ∃ e, getMemberName etcdutil unstartedRecord "foo" (some bootPolicy) = .ret ("", some e) ∧
      isFatalError e = true :=
  ⟨⟨Or.inl (by decide), by decide⟩,
   unready_member_fatal etcdutil unstartedRecord "foo" bootPolicy (Or.inl (by decide))
     (by decide)⟩

/-- Counterexample to claim C8 as stated: a record outside the success case (its `ClientURLs`
list is empty) for which `getMemberName` returns neither a name nor an error: with an empty
`PeerURLs` list the call panics. -/
theorem getMemberName_selfHosted_counterexample :
    namedBlankRecord.ClientURLs = [] ∧ namedBlankRecord.PeerURLs = [] ∧
    getMemberName etcdutil namedBlankRecord "foo" (some bootPolicy) = .panic indexPanic := by
  refine ⟨by decide, by decide, by decide⟩

/-- Claim C8, amended. Self-hosted mode, success characterisation: `getMemberName` returns
`(m.Name, nil)` if and only if `m.Name` is non-empty, `m.ClientURLs` is non-empty,
`m.ClientURLs[0]` differs from the boot-member client endpoint and `m.Name` has the cluster name
as a prefix; a name returned without error is the reported name unchanged; and in every other
case in which the record has a peer URL, or has both a name and a client URL, the returned name
is the empty string together with a non-nil error. -/
theorem getMemberName_selfHosted_success (u : NameCodec) (m : EtcdMember)
    (clusterName : String) (sh : SelfHostedPolicy) :
    (getMemberName u m clusterName (some sh) = .ret (m.Name, none) ↔
      ReadyOwned m clusterName sh) ∧
    (∀ name, getMemberName u m clusterName (some sh) = .ret (name, none) → name = m.Name) ∧
    (¬ ReadyOwned m clusterName sh →
      (m.PeerURLs ≠ [] ∨ (m.Name ≠ "" ∧ m.ClientURLs ≠ [])) →
      ∃ e, getMemberName u m clusterName (some sh) = .ret ("", some e)) := by
  rcases getMemberName_selfHosted_cases u m clusterName sh with
    ⟨hg, hun, hpu⟩ | ⟨e, hg, hcond⟩ | ⟨hg, hcond⟩
  · have hcond : ¬ ReadyOwned m clusterName sh := by
      rintro ⟨h1, h2, _⟩
      rcases hun with h | h
      · exact h1 h
      · exact h2 h
    refine ⟨⟨fun h => ?_, fun h => absurd h hcond⟩, fun name h => ?_, fun _ hor => ?_⟩
    · rw [hg] at h; cases h
    · rw [hg] at h; cases h
    · rcases hor with h | ⟨h1, h2⟩
      · exact absurd hpu h
      · rcases hun with h | h
        · exact absurd h h1
        · exact absurd h h2
  · refine ⟨⟨fun h => ?_, fun h => absurd h hcond⟩, fun name h => ?_, fun _ _ => ⟨e, hg⟩⟩
    · rw [hg] at h; exact absurd h ret_error_ne_ret_nil
    · rw [hg] at h; exact absurd h ret_error_ne_ret_nil
  · refine ⟨⟨fun _ => hcond, fun _ => hg⟩, fun name h => ?_, fun h _ => absurd hcond h⟩
    rw [hg] at h
    injection h with h
    injection h with h1 _
    exact h1.symm

/-- Witness of claim C8: the started member `foo-0001` of cluster `foo` resolves to its reported
name, and the started member `bar-0000` of another cluster gets an empty name and an error. -/
theorem getMemberName_selfHosted_success_witness :
    (ReadyOwned selfHostedRecord "foo" bootPolicy ∧ ¬ ReadyOwned barRecord "foo" bootPolicy ∧
      (barRecord.PeerURLs ≠ [] ∨ (barRecord.Name ≠ "" ∧ barRecord.ClientURLs ≠ []))) ∧
    (getMemberName etcdutil selfHostedRecord "foo" (some bootPolicy)
        = .ret (selfHostedRecord.Name, none) ∧
      ∃ e, getMemberName etcdutil barRecord "foo" (some bootPolicy) = .ret ("", some e)) :=
  ⟨⟨⟨by decide, by decide, by decide, by decide⟩, fun h => absurd h.2.2.2 (by decide),
      Or.inl (by decide)⟩,
   (getMemberName_selfHosted_success etcdutil selfHostedRecord "foo" bootPolicy).1.mpr
      ⟨by decide, by decide, by decide, by decide⟩,
   (getMemberName_selfHosted_success etcdutil barRecord "foo" bootPolicy).2.2
      (fun h => absurd h.2.2.2 (by decide)) (Or.inl (by decide))⟩

/-- Claim C9. Transport/query failure: when the store's `ListMembers` call fails, and in
self-hosted mode when the pod listing fails, `updateMembers` returns exactly that error,
unwrapped and not classified Fatal, and the cluster state (`c.members`, `c.memberCounter`) is
what it was before the call. -/
theorem query_failure_propagates (u : NameCodec) (w : Collaborators) (c : Cluster)
    (known : MemberSet) :
    (∀ err, w.ListMembers known = .error err →
      updateMembers u w c known = (c, .ret (some (.external err))) ∧
      isFatalError (.external err) = false) ∧
    (∀ resp err, w.ListMembers known = .ok resp → c.cluster.Spec.SelfHosted.isSome = true →
      w.ListPods c.cluster.Namespace = .error err →
      updateMembers u w c known = (c, .ret (some (.external err))) ∧
      isFatalError (.external err) = false) := by
  constructor
  · intro err hl
    refine ⟨?_, rfl⟩
    unfold updateMembers
    rw [hl]
  · intro resp err hl hs hp
    refine ⟨?_, rfl⟩
    unfold updateMembers reconcileRecords peerPodIPs
    rw [hl, if_pos hs, hp]

/-- Witness of claim C9: a store that cannot be reached, and a platform that refuses the pod
listing of a self-hosted cluster. -/
theorem query_failure_propagates_witness :
    (storeDown.ListMembers [] = .error "context deadline exceeded" ∧
      (platformDown [selfHostedRecord]).ListMembers [] = .ok [selfHostedRecord] ∧
      fooSelfHosted.cluster.Spec.SelfHosted.isSome = true ∧
      (platformDown [selfHostedRecord]).ListPods fooSelfHosted.cluster.Namespace
        = .error "connection refused") ∧
    ((updateMembers etcdutil storeDown fooCluster []
        = (fooCluster, .ret (some (.external "context deadline exceeded"))) ∧
      isFatalError (.external "context deadline exceeded") = false) ∧
     (updateMembers etcdutil (platformDown [selfHostedRecord]) fooSelfHosted []
        = (fooSelfHosted, .ret (some (.external "connection refused"))) ∧
      isFatalError (.external "connection refused") = false)) :=
  ⟨⟨by decide, by decide, by decide, by decide⟩,
   (query_failure_propagates etcdutil storeDown fooCluster []).1
      "context deadline exceeded" (by decide),
   (query_failure_propagates etcdutil (platformDown [selfHostedRecord]) fooSelfHosted []).2
      [selfHostedRecord] "connection refused" (by decide) (by decide) (by decide)⟩

/-- Claim C10. Wholesale replacement: when `updateMembers` returns nil, the keys of `c.members`
are pairwise distinct and are exactly the names `getMemberName` resolves from the records the
store reported, whatever the set tracked before; each entry has `Name` equal to its key,
`Namespace` equal to the cluster's namespace, `SecurePeer` and `SecureClient` equal to the
cluster-wide flags, and `ID` equal to the store ID of the record that resolved to its key (the
last such record); in normal mode `PodIP` is empty and `SelfHosted` is false, in self-hosted mode
`SelfHosted` is true. -/
theorem updateMembers_replaces_wholesale (u : NameCodec) (w : Collaborators) (c c1 : Cluster)
    (known : MemberSet) (h : updateMembers u w c known = (c1, .ret none)) :
    ∃ resp, w.ListMembers known = .ok resp ∧
      (GoMap.keys c1.members).Nodup ∧
      (∀ k, k ∈ GoMap.keys c1.members ↔ ∃ m ∈ resp,
        getMemberName u m c.cluster.Name c.cluster.Spec.SelfHosted = .ret (k, none)) ∧
      (∀ k v, (k, v) ∈ c1.members →
        v.Name = k ∧ v.Namespace = c.cluster.Namespace ∧
        v.SecurePeer = c.securePeer ∧ v.SecureClient = c.secureClient ∧
        (c.cluster.Spec.SelfHosted = none → v.PodIP = "" ∧ v.SelfHosted = false) ∧
        (c.cluster.Spec.SelfHosted.isSome = true → v.SelfHosted = true) ∧
        ∃ pre m post, resp = pre ++ m :: post ∧
          getMemberName u m c.cluster.Name c.cluster.Spec.SelfHosted = .ret (k, none) ∧
          (∀ m2 ∈ post,
            getMemberName u m2 c.cluster.Name c.cluster.Spec.SelfHosted ≠ .ret (k, none)) ∧
          v.ID = m.ID) := by
  obtain ⟨resp, ips, hl, _, hloop⟩ := updateMembers_ok u w c c1 known h
  have hent := membersLoop_ok_entries u ips resp c c1 [] hloop
  have hkeys := membersLoop_ok_keys u ips resp c c1 [] hloop
  refine ⟨resp, hl, membersLoop_ok_nodup u ips resp c c1 [] hloop List.nodup_nil, ?_, ?_⟩
  · intro k
    constructor
    · intro hk
      obtain ⟨⟨k2, v⟩, hmem, rfl⟩ := List.mem_map.mp hk
      rcases hent k2 v hmem with ⟨hnil, _⟩ | ⟨pre, m, post, hsplit, hres, _, _⟩
      · cases hnil
      · exact ⟨m, by rw [hsplit]; simp, hres⟩
    · rintro ⟨m, hm, hres⟩
      obtain ⟨name, hname, hin⟩ := hkeys.2 m hm
      rw [hres] at hname
      injection hname with hname
      injection hname with h1 _
      rw [h1]; exact hin
  · intro k v hkv
    rcases hent k v hkv with ⟨hnil, _⟩ | ⟨pre, m, post, hsplit, hres, hlast, he⟩
    · cases hnil
    · obtain ⟨e1, e2, e3, e4, e5, e6, e7⟩ := he
      exact ⟨e1, e2, e4, e5, e6, fun hs => (e7 hs).1, pre, m, post, hsplit, hres, hlast, e3⟩

/-- Witness of claim C10: `fooCluster` tracks the member `foo-0005`; the store reports `foo-0007`
and `foo-0008`; after the pass the tracked members are those two. -/
theorem updateMembers_replaces_wholesale_witness :
    updateMembers etcdutil (answering [fooRecord 1 "0007", fooRecord 2 "0008"] []) fooCluster []
      = (afterTwo, .ret none) ∧
    ∃ resp,
      (answering [fooRecord 1 "0007", fooRecord 2 "0008"] []).ListMembers [] = .ok resp ∧
      (GoMap.keys afterTwo.members).Nodup ∧
      (∀ k, k ∈ GoMap.keys afterTwo.members ↔ ∃ m ∈ resp,
        getMemberName etcdutil m fooCluster.cluster.Name fooCluster.cluster.Spec.SelfHosted
          = .ret (k, none)) ∧
      (∀ k v, (k, v) ∈ afterTwo.members →
        v.Name = k ∧ v.Namespace = fooCluster.cluster.Namespace ∧
        v.SecurePeer = fooCluster.securePeer ∧ v.SecureClient = fooCluster.secureClient ∧
        (fooCluster.cluster.Spec.SelfHosted = none → v.PodIP = "" ∧ v.SelfHosted = false) ∧
        (fooCluster.cluster.Spec.SelfHosted.isSome = true → v.SelfHosted = true) ∧
        ∃ pre m post, resp = pre ++ m :: post ∧
          getMemberName etcdutil m fooCluster.cluster.Name fooCluster.cluster.Spec.SelfHosted
            = .ret (k, none) ∧
          (∀ m2 ∈ post,
            getMemberName etcdutil m2 fooCluster.cluster.Name
              fooCluster.cluster.Spec.SelfHosted ≠ .ret (k, none)) ∧
          v.ID = m.ID) :=
  ⟨by decide,
   updateMembers_replaces_wholesale etcdutil
     (answering [fooRecord 1 "0007", fooRecord 2 "0008"] []) fooCluster afterTwo []
     (by decide)⟩

/-- Counterexample to claim C11 as stated: the store of a self-hosted cluster reports the running
boot member and then the member `foo-0001`, which resolves to its name and has no pod at all;
the pass stops at the boot member and `updateMembers` returns the ordinary "waiting for the boot
member" error, not a Fatal one. -/
theorem missing_pod_counterexample :
    getMemberName etcdutil selfHostedRecord "foo" (some bootPolicy) = .ret ("foo-0001", none) ∧
    (updateMembers etcdutil (answering [bootRecord, selfHostedRecord] []) fooSelfHosted []).2 =
      .ret (some (.wrap (.errorf
        "skipping for self hosted cluster: waiting for the boot member (boot) to be removed...")
        "get member name failed")) ∧
    isFatalError (.wrap (.errorf
        "skipping for self hosted cluster: waiting for the boot member (boot) to be removed...")
        "get member name failed") = false := by
  refine ⟨by decide, by decide, by decide⟩

/-- Claim C11, amended. Scenario C: in self-hosted mode, when a record resolves to a name, every
record before it is processed without error, and no listed pod `p` has
`p.Labels["etcd_cluster"]` equal to the cluster name together with `p.Labels["etcd_node"]` equal
to that member's name, `updateMembers` returns a Fatal error and `c.members` is unchanged. -/
theorem missing_pod_fatal (u : NameCodec) (w : Collaborators) (c : Cluster)
    (known : MemberSet) (pre post : List EtcdMember) (m : EtcdMember) (name : String)
    (pods : List Pod)
    (hs : c.cluster.Spec.SelfHosted.isSome = true)
    (hl : w.ListMembers known = .ok (pre ++ m :: post))
    (hp : w.ListPods c.cluster.Namespace = .ok pods)
    (hpre : (reconcileRecords u w c pre).2 = .ret none)
    (hname : getMemberName u m c.cluster.Name c.cluster.Spec.SelfHosted = .ret (name, none))
    (hno : ∀ p ∈ pods, carriesLabels c.cluster.Name name p = false) :
    ∃ e, (updateMembers u w c known).2 = .ret (some e) ∧ isFatalError e = true ∧
      (updateMembers u w c known).1.members = c.members := by
  obtain ⟨ips, hips, hcl, happ⟩ := reconcileRecords_append u w c pre (m :: post) hpre
  have hipsEq : ips = buildPeerPodIPs c.cluster.Name pods [] := by
    unfold peerPodIPs at hips
    rw [if_pos hs, hp] at hips
    injection hips with hips
    exact hips.symm
  have hnm : name = m.Name := by
    cases hsh : c.cluster.Spec.SelfHosted with
    | none => rw [hsh] at hs; cases hs
    | some sh =>
      rw [hsh] at hname
      exact getMemberName_selfHosted_name u m _ sh name hname
  have hget : GoMap.get? ips m.Name = none := by
    rw [hipsEq, ← hnm, get?_buildPeerPodIPs_of_none _ _ pods [] hno]
    rfl
  rw [updateMembers_eq_reconcileRecords u w c known _ hl, happ]
  have hname2 : getMemberName u m
      ({ (reconcileRecords u w c pre).1 with members := c.members } : Cluster).cluster.Name
      ({ (reconcileRecords u w c pre).1 with members := c.members } : Cluster).cluster.Spec.SelfHosted
      = .ret (name, none) := by
    show getMemberName u m (reconcileRecords u w c pre).1.cluster.Name
      (reconcileRecords u w c pre).1.cluster.Spec.SelfHosted = _
    rw [hcl]; exact hname
  cases hdec : u.GetCounterFromMemberName name with
  | error err =>
    rw [membersLoop_cons_decode_error u ips m post _ _ name err hname2 hdec]
    exact ⟨_, rfl, isFatalError_newFatalError _, rfl⟩
  | ok ct =>
    have hs2 : ({ (reconcileRecords u w c pre).1 with members := c.members } :
        Cluster).cluster.Spec.SelfHosted.isSome = true := by
      show (reconcileRecords u w c pre).1.cluster.Spec.SelfHosted.isSome = true
      rw [hcl]; exact hs
    rw [membersLoop_cons_no_pod u ips m post _ _ name ct hname2 hdec hs2 hget]
    exact ⟨_, rfl, isFatalError_newFatalError _, raiseCounter_members _ _⟩

/-- Witness of claim C11: the store of a self-hosted cluster reports `foo-0001`; the only pod
listed for that member belongs to cluster `bar`; the pass ends with a Fatal error. -/
theorem missing_pod_fatal_witness :
    (fooSelfHosted.cluster.Spec.SelfHosted.isSome = true ∧
      (reconcileRecords etcdutil (answering [selfHostedRecord] [barPod "foo-0001" "10.9.9.9"])
        fooSelfHosted []).2 = .ret none ∧
      getMemberName etcdutil selfHostedRecord fooSelfHosted.cluster.Name
        fooSelfHosted.cluster.Spec.SelfHosted = .ret ("foo-0001", none) ∧
      carriesLabels fooSelfHosted.cluster.Name "foo-0001" (barPod "foo-0001" "10.9.9.9")
        = false) ∧
    ∃ e, (updateMembers etcdutil (answering [selfHostedRecord] [barPod "foo-0001" "10.9.9.9"])
        fooSelfHosted []).2 = .ret (some e) ∧ isFatalError e = true ∧
      (updateMembers etcdutil (answering [selfHostedRecord] [barPod "foo-0001" "10.9.9.9"])
        fooSelfHosted []).1.members = fooSelfHosted.members :=
  ⟨⟨by decide, by decide, by decide, by decide⟩,
   missing_pod_fatal etcdutil (answering [selfHostedRecord] [barPod "foo-0001" "10.9.9.9"])
     fooSelfHosted [] [] [] selfHostedRecord "foo-0001" [barPod "foo-0001" "10.9.9.9"]
     (by decide) (by decide) (by decide) (by decide) (by decide) (by decide)⟩

/-- Counterexample to claim C12 as stated. When the store reports the member with counter
`2^63 - 1`, the pass succeeds with the counter left at `0`, and the name generated for the id
`2^63 - 1`, which is not below the counter, is a key of `c.members`. When the store reports the
members with counters `2^63 - 2` and `2^63 - 1`, the counter ends at `2^63 - 1` and the name
generated from the counter itself is a key of `c.members`. -/
theorem no_future_collision_counterexample :
    (updateMembers etcdutil (answering [maxCounterRecord] []) freshCluster []).2 = .ret none ∧
    (updateMembers etcdutil (answering [maxCounterRecord] []) freshCluster []).1.memberCounter
      ≤ 9223372036854775807 ∧
    (newMember CreateMemberName
        (updateMembers etcdutil (answering [maxCounterRecord] []) freshCluster []).1
        9223372036854775807).Name ∈
      GoMap.keys (updateMembers etcdutil (answering [maxCounterRecord] [])
        freshCluster []).1.members ∧
    (updateMembers etcdutil (answering [nearMaxCounterRecord, maxCounterRecord] [])
      freshCluster []).2 = .ret none ∧
    (newMember CreateMemberName
        (updateMembers etcdutil (answering [nearMaxCounterRecord, maxCounterRecord] [])
          freshCluster []).1
        (updateMembers etcdutil (answering [nearMaxCounterRecord, maxCounterRecord] [])
          freshCluster []).1.memberCounter).Name ∈
      GoMap.keys (updateMembers etcdutil (answering [nearMaxCounterRecord, maxCounterRecord] [])
        freshCluster []).1.members := by
  refine ⟨by decide, by decide, by decide, by decide, by decide⟩

/-- Claim C12, amended. No future collision: after a pass of `updateMembers` that returns nil,
for every id that is at least `c.memberCounter`, is below the largest `int` value `2^63 - 1` and
is decoded back from its generated name (as every non-negative counter is), the name
`newMember(id)` generates is not a key of `c.members`; this holds in particular for the id
`c.memberCounter` itself. -/
theorem no_future_collision (u : NameCodec) (Create : String → Int → String)
    (w : Collaborators) (c c1 : Cluster) (known : MemberSet)
    (h : updateMembers u w c known = (c1, .ret none)) (id : Int)
    (hge : c1.memberCounter ≤ id) (hlt : id < 2 ^ 63 - 1)
    (hrt : u.GetCounterFromMemberName (Create c1.cluster.Name id) = .ok id) :
    (newMember Create c1 id).Name ∉ GoMap.keys c1.members := by
  intro hmem
  obtain ⟨⟨k, v⟩, hkv, hk⟩ := List.mem_map.mp hmem
  have hname : v.Name = k := updateMembers_ok_names u w c c1 known h k v hkv
  have hk2 : k = Create c1.cluster.Name id := hk
  have hdec : u.GetCounterFromMemberName v.Name = .ok id := by rw [hname, hk2]; exact hrt
  have := updateMembers_ok_watermark u w c c1 known h k v hkv id hdec hlt
  omega

/-- Witness of claim C12: after the pass that installs `foo-0007` and `foo-0008` the counter is
`9`, and `foo-0009` is not among the tracked members. -/
theorem no_future_collision_witness :
    (updateMembers etcdutil (answering [fooRecord 1 "0007", fooRecord 2 "0008"] []) fooCluster []
        = (afterTwo, .ret none) ∧
      afterTwo.memberCounter ≤ 9 ∧ (9 : Int) < 2 ^ 63 - 1 ∧
      etcdutil.GetCounterFromMemberName (CreateMemberName afterTwo.cluster.Name 9) = .ok 9) ∧
    (newMember CreateMemberName afterTwo 9).Name ∉ GoMap.keys afterTwo.members :=
  ⟨⟨by decide, by decide, by decide, by decide⟩,
   no_future_collision etcdutil CreateMemberName
     (answering [fooRecord 1 "0007", fooRecord 2 "0008"] []) fooCluster afterTwo []
     (by decide) 9 (by decide) (by decide) (by decide)⟩

/-- Claim C13. The method `newMember` is a pure constructor: for every cluster state and every
id it returns a member with `Name = CreateMemberName(cluster name, id)`, the cluster's
namespace, `SecurePeer` and `SecureClient` equal to the cluster's flags, `SelfHosted` true
exactly when the cluster's self-hosted policy is non-nil, `ID` zero and `PodIP` empty; and the
cluster state after the call, `c.members` and `c.memberCounter` included, is the state before
it. -/
theorem newMember_pure (Create : String → Int → String) (c : Cluster) (id : Int) :
    (newMemberCall Create c id).2.Name = Create c.cluster.Name id ∧
    (newMemberCall Create c id).2.Namespace = c.cluster.Namespace ∧
    (newMemberCall Create c id).2.SecurePeer = c.securePeer ∧
    (newMemberCall Create c id).2.SecureClient = c.secureClient ∧
    ((newMemberCall Create c id).2.SelfHosted = true ↔ c.cluster.Spec.SelfHosted ≠ none) ∧
    (newMemberCall Create c id).2.ID = 0 ∧
    (newMemberCall Create c id).2.PodIP = "" ∧
    (newMemberCall Create c id).1 = c ∧
    (newMemberCall Create c id).1.members = c.members ∧
    (newMemberCall Create c id).1.memberCounter = c.memberCounter := by
  refine ⟨rfl, rfl, rfl, rfl, ?_, rfl, rfl, rfl, rfl, rfl⟩
  show c.cluster.Spec.SelfHosted.isSome = true ↔ c.cluster.Spec.SelfHosted ≠ none
  cases c.cluster.Spec.SelfHosted <;> simp

/-- Claim C14. Name round trip and uniqueness: for every cluster name and every valid counter
`c` (a non-negative value of `int`), decoding the encoded name gives the counter back,
`GetCounterFromMemberName(CreateMemberName(clusterName, c)) = c` with no error; consequently,
for one cluster name, `CreateMemberName` yields distinct names for distinct valid counters. -/
theorem name_round_trip (clusterName : String) (c : Int) (h0 : 0 ≤ c) (hlt : c < 2 ^ 63) :
    GetCounterFromMemberName (CreateMemberName clusterName c) = .ok c ∧
    ∀ c2 : Int, 0 ≤ c2 → c2 < 2 ^ 63 → c ≠ c2 →
      CreateMemberName clusterName c ≠ CreateMemberName clusterName c2 := by
  refine ⟨getCounter_createMemberName clusterName c h0 hlt, ?_⟩
  intro c2 h02 hlt2 hne heq
  have h1 := getCounter_createMemberName clusterName c h0 hlt
  have h2 := getCounter_createMemberName clusterName c2 h02 hlt2
  rw [heq, h2] at h1
  injection h1 with h1
  exact hne h1.symm

/-- Witness of claim C14: the counter `17` of cluster `foo`, against the counter `18`. -/
theorem name_round_trip_witness :
    ((0 : Int) ≤ 17 ∧ (17 : Int) < 2 ^ 63 ∧ (0 : Int) ≤ 18 ∧ (18 : Int) < 2 ^ 63 ∧
      (17 : Int) ≠ 18) ∧
    (GetCounterFromMemberName (CreateMemberName "foo" 17) = .ok 17 ∧
      CreateMemberName "foo" 17 ≠ CreateMemberName "foo" 18) :=
  ⟨⟨by decide, by decide, by decide, by decide, by decide⟩,
   (name_round_trip "foo" 17 (by decide) (by decide)).1,
   (name_round_trip "foo" 17 (by decide) (by decide)).2 18 (by decide) (by decide)
     (by decide)⟩

/-- Counterexample to claim C15 as stated: the name `foo2-0000`, generated for cluster `foo2`,
starts with `foo`; the ownership test accepts it for cluster `foo`, and `getMemberName` returns
it for that cluster, although no counter makes it a name generated for cluster `foo`. -/
theorem ownership_exact_counterexample :
    HasPrefix (CreateMemberName "foo2" 0) "foo" = true ∧
    (∀ c : Int, CreateMemberName "foo" c ≠ CreateMemberName "foo2" 0) ∧
    getMemberName etcdutil foo2Record "foo" (some bootPolicy) = .ret ("foo2-0000", none) := by
  refine ⟨by decide, ?_, by decide⟩
  intro c heq
  obtain ⟨rest, hrest⟩ := createMemberName_foo_data c
  rw [heq] at hrest
  have h2 : (CreateMemberName "foo2" 0).data = 'f' :: 'o' :: 'o' :: '2' :: "-0000".data := by
    decide
  rw [h2] at hrest
  injection hrest with _ hrest
  injection hrest with _ hrest
  injection hrest with _ hrest
  injection hrest with hc _
  exact absurd hc (by decide)

/-- Claim C15, amended. The ownership test that `getMemberName` applies in self-hosted mode,
`strings.HasPrefix(m.Name, clusterName)`, is true for every name produced by `CreateMemberName`
for that cluster name with some counter; it is true exactly for the names that start with the
cluster name, whoever produced them. -/
theorem ownership_is_prefix_test (clusterName : String) (c : Int) (name : String) :
    HasPrefix (CreateMemberName clusterName c) clusterName = true ∧
    (HasPrefix name clusterName = true ↔ ∃ rest : String, name = clusterName ++ rest) :=
  ⟨hasPrefix_createMemberName clusterName c, hasPrefix_iff name clusterName⟩

/-- Counterexample to claim C16 as stated: the cluster `fooCluster` has reached the counter `6`
in earlier passes; the store reports the members with counters `0` and `1`; the pass succeeds
and the counter is still `6`, not `2`. -/
theorem scenario_two_members_counterexample :
    fooCluster.cluster.Spec.SelfHosted = none ∧
    updateMembers etcdutil (answering [fooRecord 10 "0000", fooRecord 11 "0001"] [])
        fooCluster [] =
      ({ fooCluster with
          members := [(CreateMemberName "foo" 1, ⟨"foo-0001", "default", 11, "", false, true, false⟩),
                      (CreateMemberName "foo" 0, ⟨"foo-0000", "default", 10, "", false, true, false⟩)],
          memberCounter := 6 }, .ret none) := by
  refine ⟨by decide, by decide⟩

/-- Claim C16, amended. Scenario A: in normal mode, when the store reports two records whose
first peer URLs encode the counters `0` and `1` for cluster `foo`, `updateMembers` returns nil,
`c.members` has exactly two entries, keyed by `CreateMemberName("foo", 0)` and
`CreateMemberName("foo", 1)`, and `c.memberCounter` is the larger of its value before the call
and `2`; it is `2` when the counter was at most `2` before the call. -/
theorem scenario_two_members (u : NameCodec) (Create : String → Int → String)
    (w : Collaborators) (c : Cluster) (known : MemberSet) (m0 m1 : EtcdMember)
    (p0 p1 : String) (ps0 ps1 : List String)
    (hs : c.cluster.Spec.SelfHosted = none)
    (hl : w.ListMembers known = .ok [m0, m1])
    (hp0 : m0.PeerURLs = p0 :: ps0) (hp1 : m1.PeerURLs = p1 :: ps1)
    (hn0 : u.MemberNameFromPeerURL p0 = .ok (Create "foo" 0))
    (hn1 : u.MemberNameFromPeerURL p1 = .ok (Create "foo" 1))
    (hd0 : u.GetCounterFromMemberName (Create "foo" 0) = .ok 0)
    (hd1 : u.GetCounterFromMemberName (Create "foo" 1) = .ok 1) :
    (updateMembers u w c known).2 = .ret none ∧
    (updateMembers u w c known).1.members =
      [(Create "foo" 1, ⟨Create "foo" 1, c.cluster.Namespace, m1.ID, "", c.securePeer,
          c.secureClient, false⟩),
       (Create "foo" 0, ⟨Create "foo" 0, c.cluster.Namespace, m0.ID, "", c.securePeer,
          c.secureClient, false⟩)] ∧
    Create "foo" 0 ≠ Create "foo" 1 ∧
    (updateMembers u w c known).1.memberCounter = max c.memberCounter 2 ∧
    (c.memberCounter ≤ 2 → (updateMembers u w c known).1.memberCounter = 2) := by
  have hne : Create "foo" 0 ≠ Create "foo" 1 := by
    intro heq
    rw [heq, hd1] at hd0
    injection hd0 with hd0
    exact absurd hd0 (by decide)
  have hg0 : getMemberName u m0 c.cluster.Name none = .ret (Create "foo" 0, none) := by
    rw [getMemberName_normal u m0 _ p0 ps0 hp0, hn0]
  have hg1 : getMemberName u m1 c.cluster.Name none = .ret (Create "foo" 1, none) := by
    rw [getMemberName_normal u m1 _ p1 ps1 hp1, hn1]
  have hips : peerPodIPs w c = .ok [] := by
    unfold peerPodIPs; rw [hs]; rfl
  have hw1 : wrapInt (0 + 1) = 1 := by decide
  have hw2 : wrapInt (1 + 1) = 2 := by decide
  have hloop : updateMembers u w c known =
      ({ raiseCounter (raiseCounter c 0) 1 with
          members := GoMap.set (GoMap.set [] (Create "foo" 0)
            ⟨Create "foo" 0, c.cluster.Namespace, m0.ID, "", c.securePeer, c.secureClient,
              false⟩) (Create "foo" 1)
            ⟨Create "foo" 1, c.cluster.Namespace, m1.ID, "", c.securePeer, c.secureClient,
              false⟩ }, .ret none) := by
    rw [updateMembers_eq_reconcileRecords u w c known _ hl]
    unfold reconcileRecords
    rw [hips]
    simp only [membersLoop, raiseCounter_cluster, hs, hg0, hd0, hg1, hd1, Option.isSome_none,
      Bool.false_eq_true, if_false, raiseCounter_securePeer, raiseCounter_secureClient]
  have hcount : (raiseCounter (raiseCounter c 0) 1).memberCounter = max c.memberCounter 2 := by
    rw [raiseCounter_memberCounter, raiseCounter_memberCounter, hw1, hw2]
    omega
  rw [hloop]
  refine ⟨rfl, ?_, hne, hcount, fun hle => ?_⟩
  · simp [GoMap.set, hne]
  · show (raiseCounter (raiseCounter c 0) 1).memberCounter = 2
    rw [hcount]; omega

/-- Witness of claim C16: a fresh cluster `foo`, and the records of `foo-0000` and
`foo-0001`. -/
theorem scenario_two_members_witness :
    (freshCluster.cluster.Spec.SelfHosted = none ∧
      (answering [fooRecord 10 "0000", fooRecord 11 "0001"] []).ListMembers []
        = .ok [fooRecord 10 "0000", fooRecord 11 "0001"] ∧
      etcdutil.MemberNameFromPeerURL "http://foo-0000.foo.default.svc:2380"
        = .ok (CreateMemberName "foo" 0) ∧
      etcdutil.MemberNameFromPeerURL "http://foo-0001.foo.default.svc:2380"
        = .ok (CreateMemberName "foo" 1) ∧
      etcdutil.GetCounterFromMemberName (CreateMemberName "foo" 0) = .ok 0 ∧
      etcdutil.GetCounterFromMemberName (CreateMemberName "foo" 1) = .ok 1 ∧
      freshCluster.memberCounter ≤ 2) ∧
    ((updateMembers etcdutil (answering [fooRecord 10 "0000", fooRecord 11 "0001"] [])
        freshCluster []).2 = .ret none ∧
      (updateMembers etcdutil (answering [fooRecord 10 "0000", fooRecord 11 "0001"] [])
        freshCluster []).1.members =
        [(CreateMemberName "foo" 1, ⟨CreateMemberName "foo" 1, "default", 11, "", false, true,
            false⟩),
         (CreateMemberName "foo" 0, ⟨CreateMemberName "foo" 0, "default", 10, "", false, true,
            false⟩)] ∧
      (updateMembers etcdutil (answering [fooRecord 10 "0000", fooRecord 11 "0001"] [])
        freshCluster []).1.memberCounter = 2) :=
  ⟨⟨by decide, by decide, by decide, by decide, by decide, by decide, by decide⟩,
   (scenario_two_members etcdutil CreateMemberName
      (answering [fooRecord 10 "0000", fooRecord 11 "0001"] []) freshCluster []
      (fooRecord 10 "0000") (fooRecord 11 "0001")
      "http://foo-0000.foo.default.svc:2380" "http://foo-0001.foo.default.svc:2380" [] []
      (by decide) (by decide) (by decide) (by decide) (by decide) (by decide) (by decide)
      (by decide)).1,
   (scenario_two_members etcdutil CreateMemberName
      (answering [fooRecord 10 "0000", fooRecord 11 "0001"] []) freshCluster []
      (fooRecord 10 "0000") (fooRecord 11 "0001")
      "http://foo-0000.foo.default.svc:2380" "http://foo-0001.foo.default.svc:2380" [] []
      (by decide) (by decide) (by decide) (by decide) (by decide) (by decide) (by decide)
      (by decide)).2.1,
   (scenario_two_members etcdutil CreateMemberName
      (answering [fooRecord 10 "0000", fooRecord 11 "0001"] []) freshCluster []
      (fooRecord 10 "0000") (fooRecord 11 "0001")
      "http://foo-0000.foo.default.svc:2380" "http://foo-0001.foo.default.svc:2380" [] []
      (by decide) (by decide) (by decide) (by decide) (by decide) (by decide) (by decide)
      (by decide)).2.2.2.2 (by decide)⟩

/-- Counterexample to claim C17 as stated: the only record resolved has the counter `2^63 - 1`;
the pass succeeds and the counter is `0` as before, while the maximum of `0` and `1 + counter`
is `2^63`. -/
theorem memberCounter_exact_counterexample :
    countersSeen etcdutil (answering [maxCounterRecord] []) freshCluster []
      = [9223372036854775807] ∧
    freshCluster.memberCounter = 0 ∧
    (updateMembers etcdutil (answering [maxCounterRecord] []) freshCluster []).1.memberCounter
      = 0 ∧
    max (0 : Int) (1 + 9223372036854775807) ≠ 0 := by
  refine ⟨by decide, by decide, by decide, by decide⟩

/-- Claim C17, amended. Exact counter update, also on failure: for every call of `updateMembers`
in which every counter resolved before the pass stopped is an `int` below the largest `int`
value `2^63 - 1`, `c.memberCounter` after the call equals the maximum of its value before the
call and `counter + 1` over the records whose name and counter were resolved before the pass
stopped; a pass that returns an error keeps that raise and leaves `c.members` untouched, and a
pass in which no counter was resolved leaves `c.memberCounter` unchanged. -/
theorem memberCounter_exact (u : NameCodec) (w : Collaborators) (c : Cluster)
    (known : MemberSet)
    (hrange : ∀ ct ∈ countersSeen u w c known, -2 ^ 63 ≤ ct ∧ ct < 2 ^ 63 - 1) :
    (updateMembers u w c known).1.memberCounter =
      (countersSeen u w c known).foldl (fun acc ct => max acc (ct + 1)) c.memberCounter ∧
    ((updateMembers u w c known).2 ≠ .ret none →
      (updateMembers u w c known).1.members = c.members) ∧
    (countersSeen u w c known = [] →
      (updateMembers u w c known).1.memberCounter = c.memberCounter) := by
  have hformula := updateMembers_memberCounter u w c known
  rw [foldl_max_wrapInt _ _ hrange] at hformula
  refine ⟨hformula, updateMembers_members_of_error u w c known, fun hnil => ?_⟩
  rw [hformula, hnil]
  rfl

/-- Witness of claim C17: a fresh cluster; the store reports `foo-0007` and then a record with
an unparsable peer URL; the pass fails at the second record, the counter is `8` and the tracked
members are those of before. -/
theorem memberCounter_exact_witness :
    ((∀ ct ∈ countersSeen etcdutil (answering [fooRecord 1 "0007", brokenPeerRecord] [])
        freshCluster [], -2 ^ 63 ≤ ct ∧ ct < 2 ^ 63 - 1) ∧
      (updateMembers etcdutil (answering [fooRecord 1 "0007", brokenPeerRecord] [])
        freshCluster []).2 ≠ .ret none) ∧
    ((updateMembers etcdutil (answering [fooRecord 1 "0007", brokenPeerRecord] [])
        freshCluster []).1.memberCounter =
      ([7] : List Int).foldl (fun acc ct => max acc (ct + 1)) 0 ∧
     (updateMembers etcdutil (answering [fooRecord 1 "0007", brokenPeerRecord] [])
        freshCluster []).1.members = freshCluster.members) :=
  ⟨⟨by decide, by decide⟩,
   (memberCounter_exact etcdutil (answering [fooRecord 1 "0007", brokenPeerRecord] [])
      freshCluster [] (by decide)).1,
   (memberCounter_exact etcdutil (answering [fooRecord 1 "0007", brokenPeerRecord] [])
      freshCluster [] (by decide)).2.1 (by decide)⟩

/-- Counterexample to claim C18 as stated: the store of a self-hosted cluster reports the running
boot member and then a member named `foo`, which resolves to its name and carries no counter;
the pass stops at the boot member and `updateMembers` returns the ordinary "waiting for the boot
member" error, not a Fatal one. -/
theorem undecodable_name_counterexample :
    getMemberName etcdutil undecodableRecord "foo" (some bootPolicy) = .ret ("foo", none) ∧
    etcdutil.GetCounterFromMemberName "foo"
      = .error "name (foo) does not contain a counter suffix" ∧
    (updateMembers etcdutil (answering [bootRecord, undecodableRecord] []) fooSelfHosted []).2 =
      .ret (some (.wrap (.errorf
        "skipping for self hosted cluster: waiting for the boot member (boot) to be removed...")
        "get member name failed")) ∧
    isFatalError (.wrap (.errorf
        "skipping for self hosted cluster: waiting for the boot member (boot) to be removed...")
        "get member name failed") = false := by
  refine ⟨by decide, by decide, by decide, by decide⟩

/-- Claim C18, amended. Undecodable resolved name: when `getMemberName` succeeds for a record,
`GetCounterFromMemberName` fails on the resolved name, and every record before it is processed
without error, `updateMembers` returns a Fatal error, `c.memberCounter` is what the records
before that record made it (that record does not change it), and `c.members` is unchanged. -/
theorem undecodable_name_fatal (u : NameCodec) (w : Collaborators) (c : Cluster)
    (known : MemberSet) (pre post : List EtcdMember) (m : EtcdMember) (name err : String)
    (hl : w.ListMembers known = .ok (pre ++ m :: post))
    (hpre : (reconcileRecords u w c pre).2 = .ret none)
    (hname : getMemberName u m c.cluster.Name c.cluster.Spec.SelfHosted = .ret (name, none))
    (hdec : u.GetCounterFromMemberName name = .error err) :
    (∃ e, (updateMembers u w c known).2 = .ret (some e) ∧ isFatalError e = true) ∧
    (updateMembers u w c known).1.memberCounter = (reconcileRecords u w c pre).1.memberCounter ∧
    (updateMembers u w c known).1.members = c.members := by
  obtain ⟨ips, _, hcl, happ⟩ := reconcileRecords_append u w c pre (m :: post) hpre
  have hname2 : getMemberName u m
      ({ (reconcileRecords u w c pre).1 with members := c.members } : Cluster).cluster.Name
      ({ (reconcileRecords u w c pre).1 with members := c.members } : Cluster).cluster.Spec.SelfHosted
      = .ret (name, none) := by
    show getMemberName u m (reconcileRecords u w c pre).1.cluster.Name
      (reconcileRecords u w c pre).1.cluster.Spec.SelfHosted = _
    rw [hcl]; exact hname
  rw [updateMembers_eq_reconcileRecords u w c known _ hl, happ,
    membersLoop_cons_decode_error u ips m post _ _ name err hname2 hdec]
  exact ⟨⟨_, rfl, isFatalError_newFatalError _⟩, rfl, rfl⟩

/-- Witness of claim C18: the store of a self-hosted cluster reports `foo-0001`, whose pod is
listed, and then a member named `foo`; the pass ends with a Fatal error, the counter stays at
the `6` reached before and the tracked members are those of before. -/
theorem undecodable_name_fatal_witness :
    ((answering [selfHostedRecord, undecodableRecord] [fooPod "foo-0001" "10.0.0.1"]).ListMembers []
        = .ok ([selfHostedRecord] ++ undecodableRecord :: []) ∧
      (reconcileRecords etcdutil
        (answering [selfHostedRecord, undecodableRecord] [fooPod "foo-0001" "10.0.0.1"])
        fooSelfHosted [selfHostedRecord]).2 = .ret none ∧
      getMemberName etcdutil undecodableRecord fooSelfHosted.cluster.Name
        fooSelfHosted.cluster.Spec.SelfHosted = .ret ("foo", none) ∧
      etcdutil.GetCounterFromMemberName "foo"
        = .error "name (foo) does not contain a counter suffix") ∧
    ((∃ e, (updateMembers etcdutil
        (answering [selfHostedRecord, undecodableRecord] [fooPod "foo-0001" "10.0.0.1"])
        fooSelfHosted []).2 = .ret (some e) ∧ isFatalError e = true) ∧
      (updateMembers etcdutil
        (answering [selfHostedRecord, undecodableRecord] [fooPod "foo-0001" "10.0.0.1"])
        fooSelfHosted []).1.memberCounter = 6 ∧
      (updateMembers etcdutil
        (answering [selfHostedRecord, undecodableRecord] [fooPod "foo-0001" "10.0.0.1"])
        fooSelfHosted []).1.members = fooSelfHosted.members) :=
  ⟨⟨by decide, by decide, by decide, by decide⟩,
   undecodable_name_fatal etcdutil
     (answering [selfHostedRecord, undecodableRecord] [fooPod "foo-0001" "10.0.0.1"])
     fooSelfHosted [] [selfHostedRecord] [] undecodableRecord "foo"
     "name (foo) does not contain a counter suffix" (by decide) (by decide) (by decide)
     (by decide)⟩

/-- Claim C19. Self-hosted address resolution: when `updateMembers` returns nil in self-hosted
mode, every installed member is keyed by the reported name of a record, and its `PodIP` is the
`Status.PodIP` of the last pod `p` in the listing with `p.Labels["etcd_cluster"]` equal to the
cluster name and `p.Labels["etcd_node"]` equal to that reported name; pods whose `etcd_cluster`
label differs from the cluster name do not take part in the address index. -/
theorem selfHosted_address (u : NameCodec) (w : Collaborators) (c c1 : Cluster)
    (known : MemberSet) (h : updateMembers u w c known = (c1, .ret none))
    (hs : c.cluster.Spec.SelfHosted.isSome = true) :
    ∃ resp pods, w.ListMembers known = .ok resp ∧ w.ListPods c.cluster.Namespace = .ok pods ∧
      (∀ k v, (k, v) ∈ c1.members →
        ∃ m ∈ resp, m.Name = k ∧
          ∃ pre p post, pods = pre ++ p :: post ∧
            GoMap.getD p.Labels "etcd_cluster" = c.cluster.Name ∧
            GoMap.getD p.Labels "etcd_node" = m.Name ∧
            (∀ q ∈ post, carriesLabels c.cluster.Name m.Name q = false) ∧
            v.PodIP = p.Status.PodIP) ∧
      peerPodIPs w c = .ok (buildPeerPodIPs c.cluster.Name
        (pods.filter (fun p => decide (GoMap.getD p.Labels "etcd_cluster" = c.cluster.Name)))
        []) := by
  obtain ⟨resp, ips, hl, hips, hloop⟩ := updateMembers_ok u w c c1 known h
  cases hp : w.ListPods c.cluster.Namespace with
  | error err =>
    unfold peerPodIPs at hips
    rw [if_pos hs, hp] at hips
    cases hips
  | ok pods =>
    have hipsEq : ips = buildPeerPodIPs c.cluster.Name pods [] := by
      unfold peerPodIPs at hips
      rw [if_pos hs, hp] at hips
      injection hips with hips
      exact hips.symm
    refine ⟨resp, pods, hl, rfl, ?_, ?_⟩
    · intro k v hkv
      rcases membersLoop_ok_entries u ips resp c c1 [] hloop k v hkv with
        ⟨hnil, _⟩ | ⟨rpre, m, rpost, hsplit, hres, _, he⟩
      · cases hnil
      · have hk : k = m.Name := by
          cases hsh : c.cluster.Spec.SelfHosted with
          | none => rw [hsh] at hs; cases hs
          | some sh =>
            rw [hsh] at hres
            exact getMemberName_selfHosted_name u m _ sh k hres
        have hget := (he.2.2.2.2.2.2 hs).2
        rw [hipsEq] at hget
        refine ⟨m, by rw [hsplit]; simp, hk.symm, ?_⟩
        rcases get?_buildPeerPodIPs c.cluster.Name m.Name pods [] v.PodIP hget with
          ⟨pre, p, post, hpods, hcar, hlast, hip⟩ | ⟨hacc, _⟩
        · have hlab := (carriesLabels_iff _ _ _).mp hcar
          exact ⟨pre, p, post, hpods, hlab.1, hlab.2, hlast, hip.symm⟩
        · cases hacc
    · rw [buildPeerPodIPs_filter, ← hipsEq]
      exact hips

/-- Witness of claim C19: three pods carry the node label `foo-0001`, the last one for cluster
`bar`; the installed member has the address of the second pod, the last one of cluster
`foo`. -/
theorem selfHosted_address_witness :
    (updateMembers etcdutil (answering [selfHostedRecord] threePods) fooSelfHosted []
        = (afterSelfHosted, .ret none) ∧
      fooSelfHosted.cluster.Spec.SelfHosted.isSome = true) ∧
    ∃ resp pods,
      (answering [selfHostedRecord] threePods).ListMembers [] = .ok resp ∧
      (answering [selfHostedRecord] threePods).ListPods fooSelfHosted.cluster.Namespace
        = .ok pods ∧
      (∀ k v, (k, v) ∈ afterSelfHosted.members →
        ∃ m ∈ resp, m.Name = k ∧
          ∃ pre p post, pods = pre ++ p :: post ∧
            GoMap.getD p.Labels "etcd_cluster" = fooSelfHosted.cluster.Name ∧
            GoMap.getD p.Labels "etcd_node" = m.Name ∧
            (∀ q ∈ post, carriesLabels fooSelfHosted.cluster.Name m.Name q = false) ∧
            v.PodIP = p.Status.PodIP) ∧
      peerPodIPs (answering [selfHostedRecord] threePods) fooSelfHosted =
        .ok (buildPeerPodIPs fooSelfHosted.cluster.Name
          (pods.filter
            (fun p => decide (GoMap.getD p.Labels "etcd_cluster" = fooSelfHosted.cluster.Name)))
          []) :=
  ⟨⟨by decide, by decide⟩,
   selfHosted_address etcdutil (answering [selfHostedRecord] threePods) fooSelfHosted
     afterSelfHosted [] (by decide) (by decide)⟩

/-- Claim C20. For every pod, `IsPodReady` returns true if and only if the pod's status has a
condition of type `PodReady` and the first such condition in `status.Conditions` has status
`ConditionTrue`; in particular it returns false for a pod whose status has no conditions. -/
theorem isPodReady_iff (pod : Pod) :
    (IsPodReady pod = true ↔
      ∃ pre cond post, pod.Status.Conditions = pre ++ cond :: post ∧
        (∀ x ∈ pre, x.Type_ ≠ PodReady) ∧ cond.Type_ = PodReady ∧
        cond.Status = ConditionTrue) ∧
    IsPodReady { pod with Status := { pod.Status with Conditions := [] } } = false := by
  refine ⟨?_, rfl⟩
  unfold IsPodReady getPodReadyCondition
  constructor
  · intro h
    cases hf : firstReadyCondition pod.Status.Conditions with
    | none => rw [hf] at h; cases h
    | some cond =>
      rw [hf] at h
      obtain ⟨pre, post, hsplit, hpre, hty⟩ :=
        (firstReadyCondition_eq_some cond pod.Status.Conditions).mp hf
      exact ⟨pre, cond, post, hsplit, hpre, hty, by simpa using h⟩
  · rintro ⟨pre, cond, post, hsplit, hpre, hty, hst⟩
    rw [(firstReadyCondition_eq_some cond pod.Status.Conditions).mpr ⟨pre, post, hsplit, hpre, hty⟩]
    simpa using hst

end EtcdOperator
